import Mathlib

/-!
# Ownership handles of `Pointer/Source.cpp`

A shallow embedding of the two class templates `UniquePointer<T>` and
`SharedPointer<T>`.

* A raw pointer `T*` or `size_t*` is an `Option Nat`: `none` is `nullptr`,
  `some a` is the address `a`.
* Handle objects live at addresses; `this != &other` compares these addresses.
* `delete p` on a value pointer runs `~T()` and then releases the storage of
  the value: the value leaves the free store and its address is appended to a
  record of deallocations, so "deallocated exactly once" is a statement about
  that record.  `Store.delete` is the release of the storage.  The operations
  `dtor`, `reset`, `moveAssign`, `release`, `copyAssign` are the member
  functions for a value type whose destructor destroys no handle (such as the
  `int` of the scenario in `main`); the operations `dtorWith`, `resetWith`,
  `moveAssignWith`, `releaseWith`, `copyAssignWith` are the same member
  functions for a value type with handle members, where `~T()` destroys the
  member handles first.
* The counter of a `SharedPointer` is a `size_t` cell on the free store;
  `++` and `--` are taken modulo `2 ^ 64`.  Reading or writing a cell that is
  not allocated has no defined result (`none`).
-/

namespace Pointer

/-- Number of values of the unsigned type `size_t` (64-bit target). -/
def SIZE_MOD : Nat := 2 ^ 64

/-- Pointwise overwrite of a memory map. -/
def upd {A : Type} (f : Nat → A) (a : Nat) (x : A) : Nat → A :=
  fun b => if b = a then x else f b

/-- Values of type `T` on the free store, with the record of every `delete`
executed on a non-null value pointer (oldest first). -/
structure Store (T : Type) where
  val : Nat → Option T
  deleted : List Nat

/-- Release of the storage of the value at `p` by `delete p;` (nothing for
`nullptr`), recorded in `deleted`.  This is all of `delete p;` when `~T()`
destroys no handle; `UniquePointer.deleteWith` and `SharedPointer.deleteWith`
run the destructors of the member handles before it. -/
def Store.delete {T : Type} (p : Option Nat) (m : Store T) : Store T :=
  match p with
  | none => m
  | some a => { val := upd m.val a none, deleted := m.deleted ++ [a] }

/-! ## UniquePointer -/

/-- Data members of `UniquePointer<T>`. -/
structure UniquePointer where
  ptr : Option Nat
deriving DecidableEq

/-- Program state for `UniquePointer<T>`: the addresses of the handles whose
lifetime has begun and not ended, the handle objects, and the free store. -/
structure UHeap (T : Type) where
  live : Finset Nat
  obj : Nat → UniquePointer
  store : Store T

namespace UniquePointer

variable {T : Type}

/-- Source: `explicit UniquePointer(T* p = nullptr) : ptr(p) {}` -/
def ctor (self : Nat) (p : Option Nat) (s : UHeap T) : UHeap T :=
  { s with live := insert self s.live, obj := upd s.obj self ⟨p⟩ }

/-- Source: `~UniquePointer() { delete ptr; }` -/
def dtor (self : Nat) (s : UHeap T) : UHeap T :=
  { s with live := s.live.erase self, store := s.store.delete (s.obj self).ptr }

/-- Source: `UniquePointer(UniquePointer&& other) : ptr(other.ptr) { other.ptr = nullptr; }` -/
def moveCtor (self other : Nat) (s : UHeap T) : UHeap T :=
  let s1 : UHeap T :=
    { s with live := insert self s.live, obj := upd s.obj self ⟨(s.obj other).ptr⟩ }
  { s1 with obj := upd s1.obj other ⟨none⟩ }

/-- Source: `UniquePointer& operator=(UniquePointer&& other)` -/
def moveAssign (self other : Nat) (s : UHeap T) : UHeap T :=
  if self ≠ other then
    let s1 : UHeap T := { s with store := s.store.delete (s.obj self).ptr }
    let s2 : UHeap T := { s1 with obj := upd s1.obj self ⟨(s1.obj other).ptr⟩ }
    { s2 with obj := upd s2.obj other ⟨none⟩ }
  else s

/-- Source: `T& operator*() const { return *ptr; }`: the value read through the
reference; `none` when there is no object at `ptr`. -/
def deref (self : Nat) (s : UHeap T) : Option T :=
  match (s.obj self).ptr with
  | none => none
  | some a => s.store.val a

/-- Source: `T* operator->() const { return ptr; }` -/
def arrow (self : Nat) (s : UHeap T) : Option Nat := (s.obj self).ptr

/-- Source: `T* get() const { return ptr; }` -/
def get (self : Nat) (s : UHeap T) : Option Nat := (s.obj self).ptr

/-- Source: `void reset(T* p = nullptr) { delete ptr; ptr = p; }` -/
def reset (self : Nat) (p : Option Nat) (s : UHeap T) : UHeap T :=
  let s1 : UHeap T := { s with store := s.store.delete (s.obj self).ptr }
  { s1 with obj := upd s1.obj self ⟨p⟩ }

/-- Source: `T* release() { T* temp = ptr; ptr = nullptr; return temp; }` -/
def release (self : Nat) (s : UHeap T) : Option Nat × UHeap T :=
  let temp := (s.obj self).ptr
  (temp, { s with obj := upd s.obj self ⟨none⟩ })

end UniquePointer

/-! ## SharedPointer -/

/-- Data members of `SharedPointer<T>`. -/
structure SharedPointer where
  ptr : Option Nat
  ref_count : Option Nat
deriving DecidableEq

/-- Program state for `SharedPointer<T>`: live handle addresses, handle
objects, the value store, the allocated `size_t` cells with their contents,
and the record of `delete ref_count` executions. -/
structure SHeap (T : Type) where
  live : Finset Nat
  obj : Nat → SharedPointer
  store : Store T
  cell : Nat → Option Nat
  deletedCells : List Nat

namespace SharedPointer

variable {T : Type}

/-- Source: `++(*ref_count)` on the cell at `c`. -/
def incr (c : Nat) (s : SHeap T) : Option (SHeap T) :=
  match s.cell c with
  | none => none
  | some n => some { s with cell := upd s.cell c (some ((n + 1) % SIZE_MOD)) }

/-- Source: `void release()`: decrement the counter and, when it reaches zero,
`delete ptr; delete ref_count;`. -/
def release (self : Nat) (s : SHeap T) : Option (SHeap T) :=
  match (s.obj self).ref_count with
  | none => some s
  | some c =>
    match s.cell c with
    | none => none
    | some n =>
      let n1 := (n + (SIZE_MOD - 1)) % SIZE_MOD
      if n1 = 0 then
        some { s with store := s.store.delete (s.obj self).ptr,
                      cell := upd s.cell c none,
                      deletedCells := s.deletedCells ++ [c] }
      else
        some { s with cell := upd s.cell c (some n1) }

/-- Source: `explicit SharedPointer(T* p = nullptr)` with the member initialisers
`ptr(p), ref_count(p ? new size_t(1) : nullptr)`; `c` is the address that
`new size_t(1)` returns when it is executed. -/
def ctor (self : Nat) (p : Option Nat) (c : Nat) (s : SHeap T) : SHeap T :=
  match p with
  | none => { s with live := insert self s.live, obj := upd s.obj self ⟨none, none⟩ }
  | some v =>
    { s with live := insert self s.live, obj := upd s.obj self ⟨some v, some c⟩,
             cell := upd s.cell c (some 1) }

/-- Source: `~SharedPointer() { release(); }` -/
def dtor (self : Nat) (s : SHeap T) : Option (SHeap T) :=
  (release self s).map fun s1 => { s1 with live := s1.live.erase self }

/-- Source: `SharedPointer(const SharedPointer& other)` -/
def copyCtor (self other : Nat) (s : SHeap T) : Option (SHeap T) :=
  let s1 : SHeap T :=
    { s with live := insert self s.live,
             obj := upd s.obj self ⟨(s.obj other).ptr, (s.obj other).ref_count⟩ }
  match (s1.obj self).ref_count with
  | none => some s1
  | some c => incr c s1

/-- Source: `SharedPointer& operator=(const SharedPointer& other)` -/
def copyAssign (self other : Nat) (s : SHeap T) : Option (SHeap T) :=
  if self ≠ other then
    (release self s).bind fun s1 =>
      let s2 : SHeap T :=
        { s1 with obj := upd s1.obj self ⟨(s1.obj other).ptr, (s1.obj other).ref_count⟩ }
      match (s2.obj self).ref_count with
      | none => some s2
      | some c => incr c s2
  else some s

/-- Source: `SharedPointer(SharedPointer&& other)` -/
def moveCtor (self other : Nat) (s : SHeap T) : SHeap T :=
  let s1 : SHeap T :=
    { s with live := insert self s.live,
             obj := upd s.obj self ⟨(s.obj other).ptr, (s.obj other).ref_count⟩ }
  { s1 with obj := upd s1.obj other ⟨none, none⟩ }

/-- Source: `SharedPointer& operator=(SharedPointer&& other)` -/
def moveAssign (self other : Nat) (s : SHeap T) : Option (SHeap T) :=
  if self ≠ other then
    (release self s).map fun s1 =>
      let s2 : SHeap T :=
        { s1 with obj := upd s1.obj self ⟨(s1.obj other).ptr, (s1.obj other).ref_count⟩ }
      { s2 with obj := upd s2.obj other ⟨none, none⟩ }
  else some s

/-- Source: `T* get() const { return ptr; }` -/
def get (self : Nat) (s : SHeap T) : Option Nat := (s.obj self).ptr

/-- Source: `size_t use_count() const { return ref_count ? *ref_count : 0; }` -/
def use_count (self : Nat) (s : SHeap T) : Option Nat :=
  match (s.obj self).ref_count with
  | none => some 0
  | some c => s.cell c

end SharedPointer

/-! ## Programs over SharedPointer handles -/

/-- Address of a handle object: non-null and representable in 64 bits. -/
def validAddr (h : Nat) : Prop := 0 < h ∧ h < SIZE_MOD

instance (h : Nat) : Decidable (validAddr h) := by unfold validAddr; infer_instance

/-- One executed special member function of `SharedPointer<T>`.  In
`construct h p c`, `c` is the address returned by `new size_t(1)`. -/
inductive SOp where
  | construct (h : Nat) (p : Option Nat) (c : Nat)
  | copyConstruct (h src : Nat)
  | copyAssign (h src : Nat)
  | moveConstruct (h src : Nat)
  | moveAssign (h src : Nat)
  | destroy (h : Nat)
deriving DecidableEq

/-- What the language guarantees at the call: a constructor runs on storage
at a valid address that holds no live handle, every other member function runs
on live handles, and `new` returns a cell that is not currently allocated. -/
def SOp.legal {T : Type} (s : SHeap T) : SOp → Prop
  | .construct h p c => validAddr h ∧ h ∉ s.live ∧ (p ≠ none → s.cell c = none)
  | .copyConstruct h src => validAddr h ∧ h ∉ s.live ∧ src ∈ s.live
  | .copyAssign h src => h ∈ s.live ∧ src ∈ s.live
  | .moveConstruct h src => validAddr h ∧ h ∉ s.live ∧ src ∈ s.live
  | .moveAssign h src => h ∈ s.live ∧ src ∈ s.live
  | .destroy h => h ∈ s.live

instance {T : Type} (s : SHeap T) (op : SOp) : Decidable (op.legal s) := by
  cases op <;> unfold SOp.legal <;> infer_instance

/-- Effect of one operation; `none` when it touches a deallocated counter. -/
def SOp.step {T : Type} (s : SHeap T) : SOp → Option (SHeap T)
  | .construct h p c => some (SharedPointer.ctor h p c s)
  | .copyConstruct h src => SharedPointer.copyCtor h src s
  | .copyAssign h src => SharedPointer.copyAssign h src s
  | .moveConstruct h src => some (SharedPointer.moveCtor h src s)
  | .moveAssign h src => SharedPointer.moveAssign h src s
  | .destroy h => SharedPointer.dtor h s

/-- Start of a program: no handle is live, no counter is allocated, nothing
has been deallocated.  The value store and the bytes of unused handle storage
are arbitrary. -/
def SHeap.start {T : Type} (obj : Nat → SharedPointer) (val : Nat → Option T) : SHeap T :=
  { live := ∅, obj := obj, store := ⟨val, []⟩, cell := fun _ => none, deletedCells := [] }

/-- States a program reaches by SharedPointer operations. -/
inductive SReachable {T : Type} : SHeap T → Prop
  | start (obj : Nat → SharedPointer) (val : Nat → Option T) : SReachable (SHeap.start obj val)
  | step {s s1 : SHeap T} (op : SOp) :
      SReachable s → op.legal s → op.step s = some s1 → SReachable s1

/-- Runs a list of operations, checking legality of each. -/
def SOp.run {T : Type} : List SOp → SHeap T → Option (SHeap T)
  | [], s => some s
  | op :: ops, s => if op.legal s then (op.step s).bind (SOp.run ops) else none

/-- Live handles whose `ref_count` member is the address `c`. -/
def holders (live : Finset Nat) (obj : Nat → SharedPointer) (c : Nat) : Finset Nat :=
  live.filter fun h => (obj h).ref_count = some c

/-- Counter discipline: handle addresses are valid, every allocated counter
holds the number of live handles referring to it, and no live handle refers to
a deallocated counter. -/
structure SInv {T : Type} (s : SHeap T) : Prop where
  addr : ∀ h ∈ s.live, validAddr h
  count : ∀ c n, s.cell c = some n → n = (holders s.live s.obj c).card
  alloc : ∀ h ∈ s.live, ∀ c, (s.obj h).ref_count = some c → s.cell c ≠ none

/-- The two data members of every live handle are null together. -/
def SPaired {T : Type} (s : SHeap T) : Prop :=
  ∀ h ∈ s.live, (s.obj h).ptr = none ↔ (s.obj h).ref_count = none

/-- Sample program: `SharedPointer<int> a(new int(42)); SharedPointer<int> b = a;`
with `a` at address 1, `b` at address 2, the value at 100 and the counter at 7. -/
def sharedDemoOps : List SOp := [.construct 1 (some 100) 7, .copyConstruct 2 1]

/-- Store in which the only value is `42` at address 100. -/
def demoVal : Nat → Option Nat := fun a => if a = 100 then some 42 else none

/-- State before the sample programs run. -/
def sharedDemoStart : SHeap Nat := SHeap.start (fun _ => ⟨none, none⟩) demoVal

/-- State after `sharedDemoOps`. -/
def sharedDemo : SHeap Nat := (SOp.run sharedDemoOps sharedDemoStart).getD sharedDemoStart

/-! ## Programs over UniquePointer handles -/

/-- One executed member function of `UniquePointer<T>`. -/
inductive UOp where
  | construct (h : Nat) (p : Option Nat)
  | moveConstruct (h src : Nat)
  | moveAssign (h src : Nat)
  | reset (h : Nat) (p : Option Nat)
  | release (h : Nat)
  | destroy (h : Nat)
deriving DecidableEq

/-- What the language guarantees at the call: a constructor runs on storage
that holds no live handle, every other member function runs on live handles. -/
def UOp.legal {T : Type} (s : UHeap T) : UOp → Prop
  | .construct h _ => h ∉ s.live
  | .moveConstruct h src => h ∉ s.live ∧ src ∈ s.live
  | .moveAssign h src => h ∈ s.live ∧ src ∈ s.live
  | .reset h _ => h ∈ s.live
  | .release h => h ∈ s.live
  | .destroy h => h ∈ s.live

instance {T : Type} (s : UHeap T) (op : UOp) : Decidable (op.legal s) := by
  cases op <;> unfold UOp.legal <;> infer_instance

/-- The value `v` is neither held by a live handle nor already deallocated. -/
def UHeap.unowned {T : Type} (s : UHeap T) (v : Nat) : Prop :=
  v ∉ s.store.deleted ∧ ∀ g ∈ s.live, (s.obj g).ptr ≠ some v

instance {T : Type} (s : UHeap T) (v : Nat) : Decidable (s.unowned v) := by
  unfold UHeap.unowned; infer_instance

/-- Caller discipline for the raw pointers handed to a handle: a non-null
pointer given to the constructor or to `reset` is an unowned value. -/
def UOp.fresh {T : Type} (s : UHeap T) : UOp → Prop
  | .construct _ (some v) => s.unowned v
  | .reset _ (some v) => s.unowned v
  | _ => True

instance {T : Type} (s : UHeap T) (op : UOp) : Decidable (op.fresh s) := by
  unfold UOp.fresh; split <;> infer_instance

/-- Effect of one operation (the pointer returned by `release` is dropped). -/
def UOp.step {T : Type} (s : UHeap T) : UOp → UHeap T
  | .construct h p => UniquePointer.ctor h p s
  | .moveConstruct h src => UniquePointer.moveCtor h src s
  | .moveAssign h src => UniquePointer.moveAssign h src s
  | .reset h p => UniquePointer.reset h p s
  | .release h => (UniquePointer.release h s).2
  | .destroy h => UniquePointer.dtor h s

/-- Start of a program: no handle is live and nothing has been deallocated. -/
def UHeap.start {T : Type} (obj : Nat → UniquePointer) (val : Nat → Option T) : UHeap T :=
  { live := ∅, obj := obj, store := ⟨val, []⟩ }

/-- States a program reaches by UniquePointer operations, with any raw
pointer arguments. -/
inductive UReachable {T : Type} : UHeap T → Prop
  | start (obj : Nat → UniquePointer) (val : Nat → Option T) : UReachable (UHeap.start obj val)
  | step {s : UHeap T} (op : UOp) : UReachable s → op.legal s → UReachable (op.step s)

/-- States a program reaches by UniquePointer operations when every raw
pointer argument is null or an unowned value. -/
inductive UReachableFresh {T : Type} : UHeap T → Prop
  | start (obj : Nat → UniquePointer) (val : Nat → Option T) :
      UReachableFresh (UHeap.start obj val)
  | step {s : UHeap T} (op : UOp) :
      UReachableFresh s → op.legal s → op.fresh s → UReachableFresh (op.step s)

/-- At most one live handle holds any given value. -/
def UHeap.exclusive {T : Type} (s : UHeap T) : Prop :=
  ∀ a ∈ s.live, ∀ b ∈ s.live, ∀ v,
    (s.obj a).ptr = some v → (s.obj b).ptr = some v → a = b

/-- Ownership discipline: exclusive holders, no value deallocated twice, and
no live handle holds a deallocated value. -/
structure UInv {T : Type} (s : UHeap T) : Prop where
  excl : s.exclusive
  once : s.store.deleted.Nodup
  held : ∀ a ∈ s.live, ∀ v, (s.obj a).ptr = some v → v ∉ s.store.deleted

/-- State before the sample programs run. -/
def uniqueDemoStart : UHeap Nat := UHeap.start (fun _ => ⟨none⟩) demoVal

/-- Sample program: `UniquePointer<int> a(p); UniquePointer<int> b(q);` with
`a` at address 1 holding the value at 100 and `b` at address 2 holding the
value at 200. -/
def uniqueDemo : UHeap Nat :=
  UniquePointer.ctor 2 (some 200) (UniquePointer.ctor 1 (some 100) uniqueDemoStart)

/-- Sample program: `UniquePointer<int> a(p); UniquePointer<int> b(p);` with
the same raw pointer `p` (address 100) given to both constructors. -/
def uniqueAliased : UHeap Nat :=
  UOp.step (UOp.step uniqueDemoStart (.construct 1 (some 100))) (.construct 2 (some 100))

/-- Runs a list of operations, checking at each that the call is legal and
that its raw pointer argument is null or unowned. -/
def UOp.runFresh {T : Type} : List UOp → UHeap T → Option (UHeap T)
  | [], s => some s
  | op :: ops, s => if op.legal s ∧ op.fresh s then UOp.runFresh ops (op.step s) else none

/-- Sample program with distinct raw pointers:
`UniquePointer<int> a(p), b(q); a = move(b); b.reset(r);` and then the end of
the lifetime of `a`. -/
def uniqueFreshOps : List UOp :=
  [.construct 1 (some 100), .construct 2 (some 200), .moveAssign 1 2, .reset 2 (some 300),
    .destroy 1]

/-- State after `uniqueFreshOps`. -/
def uniqueFreshDemo : UHeap Nat :=
  (UOp.runFresh uniqueFreshOps uniqueDemoStart).getD uniqueDemoStart

/-- Sample program with two pairs:
`SharedPointer<int> a(p); SharedPointer<int> b = a; SharedPointer<int> c(q);`
with `a`, `b`, `c` at addresses 1, 2, 3, the values at 100 and 200 and the
counters at 7 and 8. -/
def sharedPairsOps : List SOp :=
  [.construct 1 (some 100) 7, .copyConstruct 2 1, .construct 3 (some 200) 8]

/-- State after `sharedPairsOps`. -/
def sharedPairs : SHeap Nat := (SOp.run sharedPairsOps sharedDemoStart).getD sharedDemoStart

/-! ## Values that contain handles

When the value type `T` has handle members (a list node with a `next`
handle), `delete p` first runs `~T()`, which destroys the member handles of the
value at `p`, and only then releases its storage.  `members v` lists the
addresses of the handle subobjects of the value at `v`, in order of
destruction.  The operations above are the case of a value type without handle
members; the operations below run the member destructors.  `fuel` bounds the
depth of nested destructor calls (`none` when it is exceeded). -/

/-- Source: `delete ptr;` (lines 15, 30, 54) when the value has UniquePointer
members: each member `m` is destroyed by `~UniquePointer() { delete ptr; }`, then
the storage of the value is released. -/
def UniquePointer.deleteWith {T : Type} (members : Nat → List Nat) :
    Nat → Option Nat → UHeap T → Option (UHeap T)
  | _, none, s => some s
  | 0, some _, _ => none
  | fuel + 1, some v, s =>
    ((members v).foldlM (fun s1 m =>
        (UniquePointer.deleteWith members fuel (s1.obj m).ptr s1).map
          fun s2 => { s2 with live := s2.live.erase m }) s).map
      fun s3 => { s3 with store := s3.store.delete (some v) }

/-- Source: `~UniquePointer() { delete ptr; }` with member destructors. -/
def UniquePointer.dtorWith {T : Type} (members : Nat → List Nat) (fuel : Nat) (self : Nat)
    (s : UHeap T) : Option (UHeap T) :=
  (UniquePointer.deleteWith members fuel (s.obj self).ptr s).map
    fun s1 => { s1 with live := s1.live.erase self }

/-- Source: `UniquePointer& operator=(UniquePointer&& other)` with member
destructors: `delete ptr;` runs before `other.ptr` is read. -/
def UniquePointer.moveAssignWith {T : Type} (members : Nat → List Nat) (fuel : Nat)
    (self other : Nat) (s : UHeap T) : Option (UHeap T) :=
  if self ≠ other then
    (UniquePointer.deleteWith members fuel (s.obj self).ptr s).map fun s1 =>
      let s2 : UHeap T := { s1 with obj := upd s1.obj self ⟨(s1.obj other).ptr⟩ }
      { s2 with obj := upd s2.obj other ⟨none⟩ }
  else some s

/-- Source: `void reset(T* p = nullptr) { delete ptr; ptr = p; }` with member
destructors. -/
def UniquePointer.resetWith {T : Type} (members : Nat → List Nat) (fuel : Nat) (self : Nat)
    (p : Option Nat) (s : UHeap T) : Option (UHeap T) :=
  (UniquePointer.deleteWith members fuel (s.obj self).ptr s).map fun s1 =>
    { s1 with obj := upd s1.obj self ⟨p⟩ }

/-- Source: `void release()` of SharedPointer, with the statement `delete ptr;`
given as `del`: the decremented counter is stored before `delete ptr` runs. -/
def SharedPointer.releaseUsing {T : Type} (del : Option Nat → SHeap T → Option (SHeap T))
    (self : Nat) (s : SHeap T) : Option (SHeap T) :=
  match (s.obj self).ref_count with
  | none => some s
  | some c =>
    match s.cell c with
    | none => none
    | some n =>
      let n1 := (n + (SIZE_MOD - 1)) % SIZE_MOD
      let s1 : SHeap T := { s with cell := upd s.cell c (some n1) }
      if n1 = 0 then
        (del (s1.obj self).ptr s1).map fun s2 =>
          { s2 with cell := upd s2.cell c none, deletedCells := s2.deletedCells ++ [c] }
      else some s1

/-- Source: `delete ptr;` (line 79) when the value has SharedPointer members:
each member `m` is destroyed by `~SharedPointer() { release(); }`, then the
storage of the value is released. -/
def SharedPointer.deleteWith {T : Type} (members : Nat → List Nat) :
    Nat → Option Nat → SHeap T → Option (SHeap T)
  | _, none, s => some s
  | 0, some _, _ => none
  | fuel + 1, some v, s =>
    ((members v).foldlM (fun s1 m =>
        (SharedPointer.releaseUsing (SharedPointer.deleteWith members fuel) m s1).map
          fun s2 => { s2 with live := s2.live.erase m }) s).map
      fun s3 => { s3 with store := s3.store.delete (some v) }

/-- Source: `void release()` with member destructors. -/
def SharedPointer.releaseWith {T : Type} (members : Nat → List Nat) (fuel : Nat) (self : Nat)
    (s : SHeap T) : Option (SHeap T) :=
  SharedPointer.releaseUsing (SharedPointer.deleteWith members fuel) self s

/-- Source: `~SharedPointer() { release(); }` with member destructors. -/
def SharedPointer.dtorWith {T : Type} (members : Nat → List Nat) (fuel : Nat) (self : Nat)
    (s : SHeap T) : Option (SHeap T) :=
  (SharedPointer.releaseWith members fuel self s).map
    fun s1 => { s1 with live := s1.live.erase self }

/-- Source: `SharedPointer& operator=(const SharedPointer& other)` with member
destructors: `release()` runs before `other` is read. -/
def SharedPointer.copyAssignWith {T : Type} (members : Nat → List Nat) (fuel : Nat)
    (self other : Nat) (s : SHeap T) : Option (SHeap T) :=
  if self ≠ other then
    (SharedPointer.releaseWith members fuel self s).bind fun s1 =>
      let s2 : SHeap T :=
        { s1 with obj := upd s1.obj self ⟨(s1.obj other).ptr, (s1.obj other).ref_count⟩ }
      match (s2.obj self).ref_count with
      | none => some s2
      | some c => SharedPointer.incr c s2
  else some s

/-- Source: `SharedPointer& operator=(SharedPointer&& other)` with member
destructors: `release()` runs before `other` is read. -/
def SharedPointer.moveAssignWith {T : Type} (members : Nat → List Nat) (fuel : Nat)
    (self other : Nat) (s : SHeap T) : Option (SHeap T) :=
  if self ≠ other then
    (SharedPointer.releaseWith members fuel self s).map fun s1 =>
      let s2 : SHeap T :=
        { s1 with obj := upd s1.obj self ⟨(s1.obj other).ptr, (s1.obj other).ref_count⟩ }
      { s2 with obj := upd s2.obj other ⟨none, none⟩ }
  else some s

/-- Effect of one SharedPointer operation with member destructors. -/
def SOp.stepWith {T : Type} (members : Nat → List Nat) (fuel : Nat) (s : SHeap T) :
    SOp → Option (SHeap T)
  | .construct h p c => some (SharedPointer.ctor h p c s)
  | .copyConstruct h src => SharedPointer.copyCtor h src s
  | .copyAssign h src => SharedPointer.copyAssignWith members fuel h src s
  | .moveConstruct h src => some (SharedPointer.moveCtor h src s)
  | .moveAssign h src => SharedPointer.moveAssignWith members fuel h src s
  | .destroy h => SharedPointer.dtorWith members fuel h s

/-- Effect of one UniquePointer operation with member destructors. -/
def UOp.stepWith {T : Type} (members : Nat → List Nat) (fuel : Nat) (s : UHeap T) :
    UOp → Option (UHeap T)
  | .construct h p => some (UniquePointer.ctor h p s)
  | .moveConstruct h src => some (UniquePointer.moveCtor h src s)
  | .moveAssign h src => UniquePointer.moveAssignWith members fuel h src s
  | .reset h p => UniquePointer.resetWith members fuel h p s
  | .release h => some (UniquePointer.release h s).2
  | .destroy h => UniquePointer.dtorWith members fuel h s

/-- States a program reaches by UniquePointer operations on values whose
handle members are given by `members`, when every raw pointer argument is null
or an unowned value. -/
inductive UReachableFreshWith {T : Type} (members : Nat → List Nat) : UHeap T → Prop
  | start (obj : Nat → UniquePointer) (val : Nat → Option T) :
      UReachableFreshWith members (UHeap.start obj val)
  | step {s s1 : UHeap T} (op : UOp) (fuel : Nat) :
      UReachableFreshWith members s → op.legal s → op.fresh s →
      op.stepWith members fuel s = some s1 → UReachableFreshWith members s1

/-- Runs a list of operations with member destructors, checking at each that
the call is legal and that its raw pointer argument is null or unowned. -/
def UOp.runFreshWith {T : Type} (members : Nat → List Nat) (fuel : Nat) :
    List UOp → UHeap T → Option (UHeap T)
  | [], s => some s
  | op :: ops, s =>
    if op.legal s ∧ op.fresh s then
      (op.stepWith members fuel s).bind (UOp.runFreshWith members fuel ops)
    else none

/-- Layout of a list with two nodes: the node at 100 has its `next` handle at
address 10, the node at 200 has its `next` handle at address 20. -/
def nodeMembers : Nat → List Nat :=
  fun v => if v = 100 then [10] else if v = 200 then [20] else []

/-- Sample program on a list of UniquePointer nodes, every raw pointer fresh:
`UniquePointer<Node> head(new Node); head->next.reset(new Node);` with `head`
at address 1 (the `next` members are constructed empty with their nodes). -/
def uniqueListOps : List UOp :=
  [.construct 10 none, .construct 1 (some 100), .construct 20 none, .reset 10 (some 200)]

/-- State after `uniqueListOps`. -/
def uniqueList : UHeap Nat :=
  (UOp.runFreshWith nodeMembers 4 uniqueListOps uniqueDemoStart).getD uniqueDemoStart

variable {T : Type}

theorem upd_same {A : Type} (f : Nat → A) (a : Nat) (x : A) : upd f a x a = x := by
  simp [upd]

theorem upd_other {A : Type} (f : Nat → A) {a b : Nat} (x : A) (h : b ≠ a) :
    upd f a x b = f b := by
  simp [upd, h]

theorem holders_card_split (live : Finset Nat) (obj : Nat → SharedPointer) (c h : Nat) :
    (holders live obj c).card =
      (holders (live.erase h) obj c).card +
        if h ∈ live ∧ (obj h).ref_count = some c then 1 else 0 := by
  by_cases hl : h ∈ live
  · have e : live = insert h (live.erase h) := (Finset.insert_erase hl).symm
    conv_lhs => rw [e]
    unfold holders
    by_cases hp : (obj h).ref_count = some c
    · rw [Finset.filter_insert, if_pos hp, Finset.card_insert_of_not_mem (by simp)]
      simp [hl, hp]
    · rw [Finset.filter_insert, if_neg hp]
      simp [hp]
  · simp [hl, Finset.erase_eq_of_not_mem hl]

theorem holders_congr (live : Finset Nat) (obj obj' : Nat → SharedPointer) (c h : Nat)
    (e : ∀ g, g ≠ h → obj' g = obj g) :
    holders (live.erase h) obj' c = holders (live.erase h) obj c := by
  unfold holders
  apply Finset.filter_congr
  intro g hg
  rw [e g (Finset.ne_of_mem_erase hg)]

theorem dec_mod {n : Nat} (h1 : 1 ≤ n) (h2 : n < SIZE_MOD) :
    (n + (SIZE_MOD - 1)) % SIZE_MOD = n - 1 := by
  unfold SIZE_MOD at *
  omega

theorem inc_mod {n : Nat} (h2 : n + 1 < SIZE_MOD) : (n + 1) % SIZE_MOD = n + 1 :=
  Nat.mod_eq_of_lt h2

theorem card_le_of_valid (live : Finset Nat) (hv : ∀ h ∈ live, validAddr h) :
    live.card + 1 ≤ SIZE_MOD := by
  have hsub : live ⊆ Finset.Ico 1 SIZE_MOD := by
    intro h hh
    have := hv h hh
    simp only [Finset.mem_Ico]
    exact ⟨this.1, this.2⟩
  have := Finset.card_le_card hsub
  rw [Nat.card_Ico] at this
  have : 0 < SIZE_MOD := by unfold SIZE_MOD; positivity
  omega

theorem holders_card_move (live live' : Finset Nat) (obj obj' : Nat → SharedPointer)
    (c h : Nat) (hl : live'.erase h = live.erase h) (e : ∀ g, g ≠ h → obj' g = obj g) :
    (holders live' obj' c).card + (if h ∈ live ∧ (obj h).ref_count = some c then 1 else 0) =
      (holders live obj c).card +
        (if h ∈ live' ∧ (obj' h).ref_count = some c then 1 else 0) := by
  rw [holders_card_split live' obj' c h, holders_card_split live obj c h, hl,
    holders_congr live obj obj' c h e]
  omega

theorem holders_card_le (live : Finset Nat) (obj : Nat → SharedPointer) (c : Nat) :
    (holders live obj c).card ≤ live.card :=
  Finset.card_filter_le _ _

theorem mem_holders {live : Finset Nat} {obj : Nat → SharedPointer} {c g : Nat} :
    g ∈ holders live obj c ↔ g ∈ live ∧ (obj g).ref_count = some c := by
  simp [holders]

theorem sinv_no_holder {s : SHeap T} (hs : SInv s) {c : Nat} (hc : s.cell c = none) :
    (holders s.live s.obj c).card = 0 := by
  rw [Finset.card_eq_zero, Finset.eq_empty_iff_forall_not_mem]
  intro g hg
  rw [mem_holders] at hg
  exact hs.alloc g hg.1 c hg.2 hc

theorem sinv_cell_of_holder {s : SHeap T} (hs : SInv s) {h c : Nat} (hl : h ∈ s.live)
    (hr : (s.obj h).ref_count = some c) :
    ∃ n, s.cell c = some n ∧ n = (holders (s.live.erase h) s.obj c).card + 1 ∧
      n + 1 ≤ SIZE_MOD := by
  cases hn : s.cell c with
  | none => exact absurd hn (hs.alloc h hl c hr)
  | some n =>
    refine ⟨n, rfl, ?_, ?_⟩
    · have := hs.count c n hn
      rw [holders_card_split s.live s.obj c h, if_pos ⟨hl, hr⟩] at this
      exact this
    · have h1 := hs.count c n hn
      have h2 := holders_card_le s.live s.obj c
      have h3 := card_le_of_valid s.live hs.addr
      omega

theorem sinv_ctor {s : SHeap T} (hs : SInv s) {h : Nat} (p : Option Nat) {c : Nat}
    (hv : validAddr h) (hf : h ∉ s.live) (hc : p ≠ none → s.cell c = none) :
    SInv (SharedPointer.ctor h p c s) := by
  cases p with
  | none =>
    refine ⟨?_, ?_, ?_⟩
    · intro g hg
      simp only [SharedPointer.ctor, Finset.mem_insert] at hg
      rcases hg with rfl | hg
      · exact hv
      · exact hs.addr g hg
    · intro c' n hn
      simp only [SharedPointer.ctor] at hn ⊢
      have := holders_card_move s.live (insert h s.live) s.obj (upd s.obj h ⟨none, none⟩) c' h
        (Finset.erase_insert_eq_erase _ _) (fun g hg => upd_other _ _ hg)
      simp [hf, upd_same] at this
      rw [this]
      exact hs.count c' n hn
    · intro g hg c' hr
      simp only [SharedPointer.ctor, Finset.mem_insert] at hg hr ⊢
      by_cases e : g = h
      · subst e; simp [upd_same] at hr
      · rw [upd_other _ _ e] at hr
        exact hs.alloc g (hg.resolve_left e) c' hr
  | some v =>
    have hc0 := sinv_no_holder hs (hc (by simp))
    refine ⟨?_, ?_, ?_⟩
    · intro g hg
      simp only [SharedPointer.ctor, Finset.mem_insert] at hg
      rcases hg with rfl | hg
      · exact hv
      · exact hs.addr g hg
    · intro c' n hn
      simp only [SharedPointer.ctor] at hn ⊢
      have := holders_card_move s.live (insert h s.live) s.obj
        (upd s.obj h ⟨some v, some c⟩) c' h
        (Finset.erase_insert_eq_erase _ _) (fun g hg => upd_other _ _ hg)
      simp only [hf, false_and, if_false, Finset.mem_insert, true_or, true_and, upd_same,
        Option.some.injEq, add_zero] at this
      by_cases e : c' = c
      · subst e
        rw [upd_same] at hn
        simp only [Option.some.injEq] at hn
        simp only [if_true] at this
        omega
      · rw [upd_other _ _ e] at hn
        rw [if_neg (fun x => e x.symm)] at this
        have := hs.count c' n hn
        omega
    · intro g hg c' hr
      simp only [SharedPointer.ctor, Finset.mem_insert] at hg hr ⊢
      by_cases e : c' = c
      · subst e; simp [upd_same]
      · rw [upd_other _ _ e]
        by_cases e2 : g = h
        · subst e2; simp [upd_same] at hr; exact absurd hr.symm e
        · rw [upd_other _ _ e2] at hr
          exact hs.alloc g (hg.resolve_left e2) c' hr

theorem sinv_release_cases {s : SHeap T} (hs : SInv s) {h : Nat} (hl : h ∈ s.live) :
    ((s.obj h).ref_count = none ∧ SharedPointer.release h s = some s) ∨
    (∃ c, (s.obj h).ref_count = some c ∧ s.cell c = some 1 ∧
      (holders (s.live.erase h) s.obj c).card = 0 ∧
      SharedPointer.release h s =
        some { s with store := s.store.delete (s.obj h).ptr,
                      cell := upd s.cell c none,
                      deletedCells := s.deletedCells ++ [c] }) ∨
    (∃ c n, (s.obj h).ref_count = some c ∧ s.cell c = some (n + 2) ∧
      (holders (s.live.erase h) s.obj c).card = n + 1 ∧
      SharedPointer.release h s = some { s with cell := upd s.cell c (some (n + 1)) }) := by
  cases hr : (s.obj h).ref_count with
  | none => left; simp [SharedPointer.release, hr]
  | some c =>
    right
    obtain ⟨n, hn, hcard, hlt⟩ := sinv_cell_of_holder hs hl hr
    have hd : (n + (SIZE_MOD - 1)) % SIZE_MOD = n - 1 := dec_mod (by omega) (by omega)
    by_cases h1 : n = 1
    · left
      subst h1
      refine ⟨c, rfl, hn, by omega, ?_⟩
      simp [SharedPointer.release, hr, hn, hd]
    · right
      obtain ⟨m, rfl⟩ : ∃ m, n = m + 2 := ⟨n - 2, by omega⟩
      refine ⟨c, m, rfl, hn, by omega, ?_⟩
      simp [SharedPointer.release, hr, hn, hd]

theorem holders_erase_card_of_ne {s : SHeap T} (hs : SInv s) {h c c1 n : Nat}
    (hr : (s.obj h).ref_count = some c) (hne : c1 ≠ c) (hn : s.cell c1 = some n) :
    n = (holders (s.live.erase h) s.obj c1).card := by
  have := hs.count c1 n hn
  rw [holders_card_split s.live s.obj c1 h] at this
  have hx : ¬ (h ∈ s.live ∧ (s.obj h).ref_count = some c1) := by
    rintro ⟨_, h2⟩
    rw [hr] at h2
    exact hne (Option.some.inj h2).symm
  rw [if_neg hx] at this
  exact this

theorem sinv_dtor {s : SHeap T} (hs : SInv s) {h : Nat} (hl : h ∈ s.live) :
    ∃ s1, SharedPointer.dtor h s = some s1 ∧ SInv s1 ∧ s1.live = s.live.erase h ∧
      s1.obj = s.obj := by
  have haddr : ∀ g ∈ s.live.erase h, validAddr g :=
    fun g hg => hs.addr g (Finset.mem_of_mem_erase hg)
  rcases sinv_release_cases hs hl with
    ⟨hr, he⟩ | ⟨c, hr, hc, hcard, he⟩ | ⟨c, n, hr, hc, hcard, he⟩
  · refine ⟨{ s with live := s.live.erase h },
      by simp only [SharedPointer.dtor, he, Option.map_some'], ⟨haddr, ?_, ?_⟩, rfl, rfl⟩
    · intro c1 n hn
      have := hs.count c1 n hn
      rw [holders_card_split s.live s.obj c1 h] at this
      simpa [hr] using this
    · intro g hg c1 hg1
      exact hs.alloc g (Finset.mem_of_mem_erase hg) c1 hg1
  · refine ⟨{ s with live := s.live.erase h, store := s.store.delete (s.obj h).ptr,
                      cell := upd s.cell c none, deletedCells := s.deletedCells ++ [c] },
      by simp only [SharedPointer.dtor, he, Option.map_some'], ⟨haddr, ?_, ?_⟩, rfl, rfl⟩
    · intro c1 n hn
      by_cases e : c1 = c
      · subst e; simp [upd_same] at hn
      · simp only [upd_other _ _ e] at hn
        exact holders_erase_card_of_ne hs hr e hn
    · intro g hg c1 hg1
      by_cases e : c1 = c
      · subst e
        have : g ∈ holders (s.live.erase h) s.obj c1 := mem_holders.2 ⟨hg, hg1⟩
        rw [Finset.card_eq_zero] at hcard
        rw [hcard] at this
        exact absurd this (Finset.not_mem_empty g)
      · simp only [upd_other _ _ e]
        exact hs.alloc g (Finset.mem_of_mem_erase hg) c1 hg1
  · refine ⟨{ s with live := s.live.erase h, cell := upd s.cell c (some (n + 1)) },
      by simp only [SharedPointer.dtor, he, Option.map_some'], ⟨haddr, ?_, ?_⟩, rfl, rfl⟩
    · intro c1 m hm
      by_cases e : c1 = c
      · subst e
        simp only [upd_same, Option.some.injEq] at hm
        show m = (holders (s.live.erase h) s.obj c1).card
        omega
      · simp only [upd_other _ _ e] at hm
        exact holders_erase_card_of_ne hs hr e hm
    · intro g hg c1 hg1
      by_cases e : c1 = c
      · subst e; simp [upd_same]
      · simp only [upd_other _ _ e]
        exact hs.alloc g (Finset.mem_of_mem_erase hg) c1 hg1

theorem holders_insert_fresh (live : Finset Nat) (obj : Nat → SharedPointer)
    (x : SharedPointer) {h : Nat} (c : Nat) (hf : h ∉ live) :
    (holders (insert h live) (upd obj h x) c).card =
      (holders live obj c).card + if x.ref_count = some c then 1 else 0 := by
  have := holders_card_move live (insert h live) obj (upd obj h x) c h
    (Finset.erase_insert_eq_erase _ _) (fun g hg => upd_other _ _ hg)
  simpa [hf, upd_same] using this

theorem valid_insert {live : Finset Nat} (hv : ∀ g ∈ live, validAddr g) {h : Nat}
    (hh : validAddr h) : ∀ g ∈ insert h live, validAddr g := by
  intro g hg
  rcases Finset.mem_insert.1 hg with rfl | hg
  · exact hh
  · exact hv g hg

theorem sinv_copyCtor {s : SHeap T} (hs : SInv s) {h src : Nat} (hv : validAddr h)
    (hf : h ∉ s.live) (hsrc : src ∈ s.live) :
    ∃ s1, SharedPointer.copyCtor h src s = some s1 ∧ SInv s1 ∧
      s1.live = insert h s.live := by
  have hne : src ≠ h := fun e => hf (e ▸ hsrc)
  have haddr := valid_insert hs.addr hv
  cases hr : (s.obj src).ref_count with
  | none =>
    refine ⟨{ s with live := insert h s.live,
                     obj := upd s.obj h ⟨(s.obj src).ptr, (s.obj src).ref_count⟩ },
      by simp [SharedPointer.copyCtor, upd_same, hr], ⟨haddr, ?_, ?_⟩, rfl⟩
    · intro c1 n hn
      show n = (holders (insert h s.live) (upd s.obj h _) c1).card
      rw [holders_insert_fresh _ _ _ _ hf]
      simpa [hr] using hs.count c1 n hn
    · intro g hg c1 hg1
      simp only [Finset.mem_insert] at hg
      by_cases e : g = h
      · subst e; simp [upd_same, hr] at hg1
      · simp only [upd_other _ _ e] at hg1
        exact hs.alloc g (hg.resolve_left e) c1 hg1
  | some c =>
    obtain ⟨n, hn, -, -⟩ := sinv_cell_of_holder hs hsrc hr
    have hcount := hs.count c n hn
    have hbound : n + 1 < SIZE_MOD := by
      have h1 := holders_card_le s.live s.obj c
      have h2 := card_le_of_valid (insert h s.live) haddr
      rw [Finset.card_insert_of_not_mem hf] at h2
      omega
    refine ⟨{ s with live := insert h s.live,
                     obj := upd s.obj h ⟨(s.obj src).ptr, (s.obj src).ref_count⟩,
                     cell := upd s.cell c (some (n + 1)) },
      by simp [SharedPointer.copyCtor, SharedPointer.incr, upd_same, hr, hn, inc_mod hbound],
      ⟨haddr, ?_, ?_⟩, rfl⟩
    · intro c1 m hm
      show m = (holders (insert h s.live) (upd s.obj h _) c1).card
      rw [holders_insert_fresh _ _ _ _ hf]
      by_cases e : c1 = c
      · subst e
        simp only [upd_same, Option.some.injEq] at hm
        simp only [hr, if_true]
        omega
      · simp only [upd_other _ _ e] at hm
        have := hs.count c1 m hm
        have e1 : ¬ c = c1 := fun x => e x.symm
        simp only [hr, Option.some.injEq, if_neg e1, add_zero]
        exact this
    · intro g hg c1 hg1
      simp only [Finset.mem_insert] at hg
      by_cases e : c1 = c
      · subst e; simp [upd_same]
      · simp only [upd_other _ _ e]
        by_cases e2 : g = h
        · subst e2
          simp only [upd_same, hr, Option.some.injEq] at hg1
          exact absurd hg1.symm e
        · simp only [upd_other _ _ e2] at hg1
          exact hs.alloc g (hg.resolve_left e2) c1 hg1

theorem sinv_moveCtor {s : SHeap T} (hs : SInv s) {h src : Nat} (hv : validAddr h)
    (hf : h ∉ s.live) (hsrc : src ∈ s.live) :
    SInv (SharedPointer.moveCtor h src s) := by
  have hne : src ≠ h := fun e => hf (e ▸ hsrc)
  have haddr := valid_insert hs.addr hv
  refine ⟨haddr, ?_, ?_⟩
  · intro c1 n hn
    have hn1 : s.cell c1 = some n := hn
    show n = (holders (insert h s.live)
      (upd (upd s.obj h ⟨(s.obj src).ptr, (s.obj src).ref_count⟩) src ⟨none, none⟩) c1).card
    have h1 := holders_insert_fresh s.live s.obj ⟨(s.obj src).ptr, (s.obj src).ref_count⟩ c1 hf
    have h2 := holders_card_move (insert h s.live) (insert h s.live)
      (upd s.obj h ⟨(s.obj src).ptr, (s.obj src).ref_count⟩)
      (upd (upd s.obj h ⟨(s.obj src).ptr, (s.obj src).ref_count⟩) src ⟨none, none⟩)
      c1 src rfl
      (fun g hg => upd_other _ _ hg)
    have h3 := hs.count c1 n hn1
    simp only [upd_same, upd_other _ _ hne, Finset.mem_insert, hsrc, or_true, true_and,
      reduceCtorEq, if_false, add_zero] at h1 h2
    split_ifs at h1 h2 <;> omega
  · intro g hg c1 hg1
    show s.cell c1 ≠ none
    have hg0 : g ∈ insert h s.live := hg
    have hg2 : (upd (upd s.obj h ⟨(s.obj src).ptr, (s.obj src).ref_count⟩) src ⟨none, none⟩
      g).ref_count = some c1 := hg1
    by_cases e : g = src
    · subst e; simp [upd_same] at hg2
    · rw [upd_other _ _ e] at hg2
      by_cases e2 : g = h
      · subst e2
        simp only [upd_same] at hg2
        exact hs.alloc src hsrc c1 hg2
      · rw [upd_other _ _ e2] at hg2
        exact hs.alloc g ((Finset.mem_insert.1 hg0).resolve_left e2) c1 hg2

theorem release_frame {s s1 : SHeap T} {h : Nat} (e : SharedPointer.release h s = some s1) :
    s1.live = s.live ∧ s1.obj = s.obj := by
  unfold SharedPointer.release at e
  split at e
  · cases e; exact ⟨rfl, rfl⟩
  · split at e
    · cases e
    · simp only at e
      split at e <;> cases e <;> exact ⟨rfl, rfl⟩

theorem copyAssign_eq_dtor_copyCtor {s : SHeap T} {h src : Nat} (hne : h ≠ src)
    (hl : h ∈ s.live) :
    SharedPointer.copyAssign h src s =
      (SharedPointer.dtor h s).bind (SharedPointer.copyCtor h src) := by
  unfold SharedPointer.copyAssign SharedPointer.dtor
  rw [if_pos hne]
  cases e : SharedPointer.release h s with
  | none => rfl
  | some s1 =>
    have hl1 : h ∈ s1.live := (release_frame e).1 ▸ hl
    simp only [Option.map_some', Option.some_bind, SharedPointer.copyCtor,
      Finset.insert_erase hl1]

theorem moveAssign_eq_dtor_moveCtor {s : SHeap T} {h src : Nat} (hne : h ≠ src)
    (hl : h ∈ s.live) :
    SharedPointer.moveAssign h src s =
      (SharedPointer.dtor h s).map (SharedPointer.moveCtor h src) := by
  unfold SharedPointer.moveAssign SharedPointer.dtor
  rw [if_pos hne]
  cases e : SharedPointer.release h s with
  | none => rfl
  | some s1 =>
    have hl1 : h ∈ s1.live := (release_frame e).1 ▸ hl
    simp only [Option.map_some', SharedPointer.moveCtor, Finset.insert_erase hl1]

theorem sinv_copyAssign {s : SHeap T} (hs : SInv s) {h src : Nat} (hl : h ∈ s.live)
    (hsrc : src ∈ s.live) :
    ∃ s1, SharedPointer.copyAssign h src s = some s1 ∧ SInv s1 ∧ s1.live = s.live := by
  by_cases hne : h = src
  · exact ⟨s, by simp [SharedPointer.copyAssign, hne], hs, rfl⟩
  · obtain ⟨d, hd, hdi, hdl, -⟩ := sinv_dtor hs hl
    have hsrc1 : src ∈ d.live := by
      rw [hdl]; exact Finset.mem_erase.2 ⟨fun e => hne e.symm, hsrc⟩
    have hf : h ∉ d.live := by rw [hdl]; exact Finset.not_mem_erase h s.live
    obtain ⟨s1, h1, h1i, h1l⟩ := sinv_copyCtor hdi (hs.addr h hl) hf hsrc1
    refine ⟨s1, ?_, h1i, ?_⟩
    · rw [copyAssign_eq_dtor_copyCtor hne hl, hd]; exact h1
    · rw [h1l, hdl, Finset.insert_erase hl]

theorem sinv_moveAssign {s : SHeap T} (hs : SInv s) {h src : Nat} (hl : h ∈ s.live)
    (hsrc : src ∈ s.live) :
    ∃ s1, SharedPointer.moveAssign h src s = some s1 ∧ SInv s1 := by
  by_cases hne : h = src
  · exact ⟨s, by simp [SharedPointer.moveAssign, hne], hs⟩
  · obtain ⟨d, hd, hdi, hdl, -⟩ := sinv_dtor hs hl
    have hsrc1 : src ∈ d.live := by
      rw [hdl]; exact Finset.mem_erase.2 ⟨fun e => hne e.symm, hsrc⟩
    have hf : h ∉ d.live := by rw [hdl]; exact Finset.not_mem_erase h s.live
    refine ⟨SharedPointer.moveCtor h src d, ?_, sinv_moveCtor hdi (hs.addr h hl) hf hsrc1⟩
    rw [moveAssign_eq_dtor_moveCtor hne hl, hd]; rfl

theorem sinv_start (obj : Nat → SharedPointer) (val : Nat → Option T) :
    SInv (SHeap.start obj val) := by
  refine ⟨?_, ?_, ?_⟩
  · intro h hh; simp [SHeap.start] at hh
  · intro c n hn; simp [SHeap.start] at hn
  · intro h hh; simp [SHeap.start] at hh

/-- Every legal operation on a state with the counter discipline returns, and
the discipline holds again afterwards. -/
theorem sinv_step {s : SHeap T} (hs : SInv s) (op : SOp) (hop : op.legal s) :
    ∃ s1, op.step s = some s1 ∧ SInv s1 := by
  cases op with
  | construct h p c => exact ⟨_, rfl, sinv_ctor hs p hop.1 hop.2.1 hop.2.2⟩
  | copyConstruct h src =>
    obtain ⟨s1, h1, h2, -⟩ := sinv_copyCtor hs hop.1 hop.2.1 hop.2.2
    exact ⟨s1, h1, h2⟩
  | copyAssign h src =>
    obtain ⟨s1, h1, h2, -⟩ := sinv_copyAssign hs hop.1 hop.2
    exact ⟨s1, h1, h2⟩
  | moveConstruct h src => exact ⟨_, rfl, sinv_moveCtor hs hop.1 hop.2.1 hop.2.2⟩
  | moveAssign h src => exact sinv_moveAssign hs hop.1 hop.2
  | destroy h =>
    obtain ⟨s1, h1, h2, -⟩ := sinv_dtor hs hop
    exact ⟨s1, h1, h2⟩

theorem sreachable_inv {s : SHeap T} (hr : SReachable s) : SInv s := by
  induction hr with
  | start obj val => exact sinv_start obj val
  | step op _ hop hstep ih =>
    obtain ⟨s2, h2, h3⟩ := sinv_step ih op hop
    rw [hstep] at h2
    cases h2
    exact h3

theorem sreachable_of_run {s s1 : SHeap T} (ops : List SOp) (hr : SReachable s)
    (e : SOp.run ops s = some s1) : SReachable s1 := by
  induction ops generalizing s with
  | nil => simp only [SOp.run, Option.some.injEq] at e; exact e ▸ hr
  | cons op ops ih =>
    simp only [SOp.run] at e
    split at e
    · rename_i hop
      cases hstep : op.step s with
      | none => simp [hstep] at e
      | some s2 =>
        rw [hstep] at e
        exact ih (SReachable.step op hr hop hstep) e
    · cases e

/-! ## What each SharedPointer operation leaves unchanged -/

theorem incr_frame {s s1 : SHeap T} {c : Nat} (e : SharedPointer.incr c s = some s1) :
    s1.live = s.live ∧ s1.obj = s.obj ∧ s1.store = s.store ∧
      s1.deletedCells = s.deletedCells := by
  unfold SharedPointer.incr at e
  split at e
  · cases e
  · cases e; exact ⟨rfl, rfl, rfl, rfl⟩

theorem dtor_frame {s s1 : SHeap T} {h : Nat} (e : SharedPointer.dtor h s = some s1) :
    s1.live = s.live.erase h ∧ s1.obj = s.obj := by
  unfold SharedPointer.dtor at e
  cases e1 : SharedPointer.release h s with
  | none => rw [e1] at e; cases e
  | some s2 =>
    rw [e1] at e
    obtain ⟨h1, h2⟩ := release_frame e1
    cases e
    exact ⟨by rw [← h1], h2⟩

theorem copyCtor_frame {s s1 : SHeap T} {h src : Nat}
    (e : SharedPointer.copyCtor h src s = some s1) :
    s1.live = insert h s.live ∧
      s1.obj = upd s.obj h ⟨(s.obj src).ptr, (s.obj src).ref_count⟩ ∧
      s1.store = s.store ∧ s1.deletedCells = s.deletedCells := by
  unfold SharedPointer.copyCtor at e
  simp only at e
  split at e
  · cases e; exact ⟨rfl, rfl, rfl, rfl⟩
  · obtain ⟨h1, h2, h3, h4⟩ := incr_frame e
    exact ⟨h1, h2, h3, h4⟩

theorem copyAssign_frame {s s1 : SHeap T} {h src : Nat} (hne : h ≠ src)
    (e : SharedPointer.copyAssign h src s = some s1) :
    s1.live = s.live ∧ s1.obj = upd s.obj h ⟨(s.obj src).ptr, (s.obj src).ref_count⟩ := by
  unfold SharedPointer.copyAssign at e
  rw [if_pos hne] at e
  cases e1 : SharedPointer.release h s with
  | none => rw [e1] at e; cases e
  | some s2 =>
    rw [e1] at e
    obtain ⟨h1, h2⟩ := release_frame e1
    simp only [Option.some_bind] at e
    split at e
    · cases e; exact ⟨h1, by rw [h2]⟩
    · obtain ⟨h3, h4, -, -⟩ := incr_frame e
      exact ⟨h3.trans h1, by rw [h4, h2]⟩

theorem moveAssign_frame {s s1 : SHeap T} {h src : Nat} (hne : h ≠ src)
    (e : SharedPointer.moveAssign h src s = some s1) :
    s1.live = s.live ∧
      s1.obj =
        upd (upd s.obj h ⟨(s.obj src).ptr, (s.obj src).ref_count⟩) src ⟨none, none⟩ := by
  unfold SharedPointer.moveAssign at e
  rw [if_pos hne] at e
  cases e1 : SharedPointer.release h s with
  | none => rw [e1] at e; cases e
  | some s2 =>
    rw [e1] at e
    obtain ⟨h1, h2⟩ := release_frame e1
    simp only [Option.map_some', Option.some.injEq] at e
    subst e
    exact ⟨h1, by simp only [h2]⟩

theorem spaired_upd {live : Finset Nat} {obj : Nat → SharedPointer} {h : Nat}
    {x : SharedPointer}
    (hp : ∀ g ∈ live, (obj g).ptr = none ↔ (obj g).ref_count = none)
    (hx : x.ptr = none ↔ x.ref_count = none) :
    ∀ g ∈ insert h live,
      ((upd obj h x) g).ptr = none ↔ ((upd obj h x) g).ref_count = none := by
  intro g hg
  by_cases e : g = h
  · subst e; simpa [upd_same] using hx
  · rw [upd_other _ _ e]
    exact hp g ((Finset.mem_insert.1 hg).resolve_left e)

theorem spaired_step {s s1 : SHeap T} (hp : SPaired s) (op : SOp) (hop : op.legal s)
    (e : op.step s = some s1) : SPaired s1 := by
  cases op with
  | construct h p c =>
    simp only [SOp.step, Option.some.injEq] at e
    subst e
    cases p with
    | none => exact spaired_upd hp (by simp)
    | some v => exact spaired_upd hp (by simp)
  | copyConstruct h src =>
    obtain ⟨h1, h2, -, -⟩ := copyCtor_frame e
    intro g hg
    rw [h1] at hg
    rw [h2]
    exact spaired_upd hp (hp src hop.2.2) g hg
  | copyAssign h src =>
    by_cases hne : h = src
    · simp only [SOp.step, SharedPointer.copyAssign, hne, ne_eq, not_true_eq_false,
        if_false, Option.some.injEq] at e
      exact e ▸ hp
    · obtain ⟨h1, h2⟩ := copyAssign_frame hne e
      intro g hg
      rw [h1] at hg
      rw [h2]
      exact spaired_upd hp (hp src hop.2) g (Finset.mem_insert_of_mem hg)
  | moveConstruct h src =>
    simp only [SOp.step, Option.some.injEq] at e
    subst e
    intro g hg
    have h0 : ∀ g ∈ insert h s.live,
        ((upd s.obj h ⟨(s.obj src).ptr, (s.obj src).ref_count⟩) g).ptr = none ↔
        ((upd s.obj h ⟨(s.obj src).ptr, (s.obj src).ref_count⟩) g).ref_count = none :=
      spaired_upd hp (hp src hop.2.2)
    have hx : (⟨none, none⟩ : SharedPointer).ptr = none ↔
        (⟨none, none⟩ : SharedPointer).ref_count = none := by simp
    exact spaired_upd h0 hx g (Finset.mem_insert_of_mem hg)
  | moveAssign h src =>
    by_cases hne : h = src
    · simp only [SOp.step, SharedPointer.moveAssign, hne, ne_eq, not_true_eq_false,
        if_false, Option.some.injEq] at e
      exact e ▸ hp
    · obtain ⟨h1, h2⟩ := moveAssign_frame hne e
      intro g hg
      rw [h1] at hg
      rw [h2]
      have h0 : ∀ g ∈ insert h s.live,
          ((upd s.obj h ⟨(s.obj src).ptr, (s.obj src).ref_count⟩) g).ptr = none ↔
          ((upd s.obj h ⟨(s.obj src).ptr, (s.obj src).ref_count⟩) g).ref_count = none :=
        spaired_upd hp (hp src hop.2)
      have hx : (⟨none, none⟩ : SharedPointer).ptr = none ↔
          (⟨none, none⟩ : SharedPointer).ref_count = none := by simp
      exact spaired_upd h0 hx g (Finset.mem_insert_of_mem (Finset.mem_insert_of_mem hg))
  | destroy h =>
    obtain ⟨h1, h2⟩ := dtor_frame e
    intro g hg
    rw [h1] at hg
    rw [h2]
    exact hp g (Finset.mem_of_mem_erase hg)

theorem sreachable_paired {s : SHeap T} (hr : SReachable s) : SPaired s := by
  induction hr with
  | start obj val => intro h hh; simp [SHeap.start] at hh
  | step op _ hop hstep ih => exact spaired_step ih op hop hstep

/-! ## The ownership discipline of UniquePointer -/

theorem mem_delete_deleted {s : Store T} {p : Option Nat} {v : Nat} :
    v ∈ (s.delete p).deleted ↔ v ∈ s.deleted ∨ p = some v := by
  cases p with
  | none => simp [Store.delete]
  | some a =>
    simp only [Store.delete, List.mem_append, List.mem_singleton, Option.some.injEq]
    constructor
    · rintro (h | h)
      · exact Or.inl h
      · exact Or.inr h.symm
    · rintro (h | h)
      · exact Or.inl h
      · exact Or.inr h.symm

theorem delete_deleted_eq (s : Store T) (p : Option Nat) :
    (s.delete p).deleted = s.deleted ++ p.toList := by
  cases p <;> simp [Store.delete]

theorem nodup_delete {s : Store T} {p : Option Nat} (hn : s.deleted.Nodup)
    (hp : ∀ v, p = some v → v ∉ s.deleted) : (s.delete p).deleted.Nodup := by
  cases p with
  | none => simpa [Store.delete] using hn
  | some a =>
    simp only [Store.delete]
    rw [List.nodup_append]
    refine ⟨hn, List.nodup_singleton a, ?_⟩
    intro x hx hx1
    rw [List.mem_singleton] at hx1
    subst hx1
    exact hp x rfl hx

theorem uinv_start (obj : Nat → UniquePointer) (val : Nat → Option T) :
    UInv (UHeap.start obj val) := by
  refine ⟨?_, ?_, ?_⟩
  · intro a ha; simp [UHeap.start] at ha
  · simp [UHeap.start]
  · intro a ha; simp [UHeap.start] at ha

/-- The discipline only looks at live handles and at the deallocation record. -/
theorem uinv_of_agree {s s1 : UHeap T} (hs : UInv s) (hl : s1.live ⊆ s.live)
    (ho : ∀ a ∈ s1.live, s1.obj a = s.obj a) (hd : s1.store.deleted = s.store.deleted) :
    UInv s1 := by
  refine ⟨?_, hd ▸ hs.once, ?_⟩
  · intro a ha b hb v hav hbv
    rw [ho a ha] at hav
    rw [ho b hb] at hbv
    exact hs.excl a (hl ha) b (hl hb) v hav hbv
  · intro a ha v hav
    rw [ho a ha] at hav
    rw [hd]
    exact hs.held a (hl ha) v hav

/-- Storing in `h` a pointer that is null or an unowned value keeps the discipline. -/
theorem uinv_set {s : UHeap T} (hs : UInv s) (h : Nat) (p : Option Nat)
    (hp : ∀ v, p = some v →
      v ∉ s.store.deleted ∧ ∀ g ∈ s.live, g ≠ h → (s.obj g).ptr ≠ some v) :
    UInv { s with live := insert h s.live, obj := upd s.obj h ⟨p⟩ } := by
  refine ⟨?_, hs.once, ?_⟩
  · intro a ha b hb v hav hbv
    have ha1 : a = h ∨ a ∈ s.live := Finset.mem_insert.1 ha
    have hb1 : b = h ∨ b ∈ s.live := Finset.mem_insert.1 hb
    have hav1 : (upd s.obj h ⟨p⟩ a).ptr = some v := hav
    have hbv1 : (upd s.obj h ⟨p⟩ b).ptr = some v := hbv
    by_cases ea : a = h
    · by_cases eb : b = h
      · exact ea.trans eb.symm
      · rw [ea, upd_same] at hav1
        rw [upd_other _ _ eb] at hbv1
        exact absurd hbv1 ((hp v hav1).2 b (hb1.resolve_left eb) eb)
    · by_cases eb : b = h
      · rw [eb, upd_same] at hbv1
        rw [upd_other _ _ ea] at hav1
        exact absurd hav1 ((hp v hbv1).2 a (ha1.resolve_left ea) ea)
      · rw [upd_other _ _ ea] at hav1
        rw [upd_other _ _ eb] at hbv1
        exact hs.excl a (ha1.resolve_left ea) b (hb1.resolve_left eb) v hav1 hbv1
  · intro a ha v hav
    have ha1 : a = h ∨ a ∈ s.live := Finset.mem_insert.1 ha
    have hav1 : (upd s.obj h ⟨p⟩ a).ptr = some v := hav
    show v ∉ s.store.deleted
    by_cases ea : a = h
    · rw [ea, upd_same] at hav1
      exact (hp v hav1).1
    · rw [upd_other _ _ ea] at hav1
      exact hs.held a (ha1.resolve_left ea) v hav1

/-- Deallocating the value of the live handle `h` and clearing `h` keeps the
discipline. -/
theorem uinv_drop {s : UHeap T} (hs : UInv s) {h : Nat} (hl : h ∈ s.live) :
    UInv { s with obj := upd s.obj h ⟨none⟩, store := s.store.delete (s.obj h).ptr } := by
  refine ⟨?_, nodup_delete hs.once (hs.held h hl), ?_⟩
  · intro a ha b hb v hav hbv
    have hav1 : (upd s.obj h ⟨none⟩ a).ptr = some v := hav
    have hbv1 : (upd s.obj h ⟨none⟩ b).ptr = some v := hbv
    by_cases ea : a = h
    · rw [ea, upd_same] at hav1; cases hav1
    · by_cases eb : b = h
      · rw [eb, upd_same] at hbv1; cases hbv1
      · rw [upd_other _ _ ea] at hav1
        rw [upd_other _ _ eb] at hbv1
        exact hs.excl a ha b hb v hav1 hbv1
  · intro a ha v hav
    have hav1 : (upd s.obj h ⟨none⟩ a).ptr = some v := hav
    show v ∉ (s.store.delete (s.obj h).ptr).deleted
    rw [mem_delete_deleted]
    by_cases ea : a = h
    · rw [ea, upd_same] at hav1; cases hav1
    · rw [upd_other _ _ ea] at hav1
      rintro (hd | hd)
      · exact hs.held a ha v hav1 hd
      · exact ea (hs.excl a ha h hl v hav1 hd)

/-- Transferring the pointer of the live handle `src` to another handle `h` and
clearing `src` keeps the discipline. -/
theorem uinv_move {s : UHeap T} (hs : UInv s) {h src : Nat} (hne : h ≠ src)
    (hsrc : src ∈ s.live) :
    UInv { s with live := insert h s.live,
                  obj := upd (upd s.obj h ⟨(s.obj src).ptr⟩) src ⟨none⟩ } := by
  have h1 := uinv_set hs src none (fun v hv => by cases hv)
  have h2 := uinv_set h1 h (s.obj src).ptr (by
    intro v hv
    refine ⟨hs.held src hsrc v hv, ?_⟩
    intro g hg hgh hgv
    have hgv1 : (upd s.obj src ⟨none⟩ g).ptr = some v := hgv
    by_cases e : g = src
    · rw [e, upd_same] at hgv1; cases hgv1
    · rw [upd_other _ _ e] at hgv1
      have hg1 : g ∈ s.live := (Finset.mem_insert.1 hg).resolve_left e
      exact e (hs.excl g hg1 src hsrc v hgv1 hv))
  refine uinv_of_agree h2 ?_ ?_ rfl
  · intro a ha
    have ha1 : a ∈ insert h s.live := ha
    show a ∈ insert h (insert src s.live)
    rcases Finset.mem_insert.1 ha1 with e | e
    · exact Finset.mem_insert.2 (Or.inl e)
    · exact Finset.mem_insert_of_mem (Finset.mem_insert_of_mem e)
  · intro a _
    show upd (upd s.obj h ⟨(s.obj src).ptr⟩) src ⟨none⟩ a =
      upd (upd s.obj src ⟨none⟩) h ⟨(s.obj src).ptr⟩ a
    by_cases e1 : a = src
    · have e2 : a ≠ h := fun e => hne (e.symm.trans e1)
      rw [upd_other _ _ e2, e1, upd_same, upd_same]
    · by_cases e2 : a = h
      · rw [upd_other _ _ e1, e2, upd_same, upd_same]
      · rw [upd_other _ _ e1, upd_other _ _ e2, upd_other _ _ e2, upd_other _ _ e1]

theorem uinv_step {s : UHeap T} (hs : UInv s) (op : UOp) (hl : op.legal s)
    (hf : op.fresh s) : UInv (op.step s) := by
  cases op with
  | construct h p =>
    refine uinv_set hs h p ?_
    intro v hv
    subst hv
    exact ⟨hf.1, fun g hg _ => hf.2 g hg⟩
  | moveConstruct h src =>
    exact uinv_move hs (fun e => hl.1 (e ▸ hl.2)) hl.2
  | moveAssign h src =>
    by_cases hne : h = src
    · have e : UOp.step s (UOp.moveAssign h src) = s := by
        simp [UOp.step, UniquePointer.moveAssign, hne]
      rw [e]; exact hs
    · have h1 := uinv_drop hs hl.1
      have h2 := uinv_move h1 hne hl.2
      refine uinv_of_agree h2 ?_ ?_ ?_
      · intro a ha
        have ha1 : a ∈ s.live := by
          simpa [UOp.step, UniquePointer.moveAssign, hne] using ha
        exact Finset.mem_insert_of_mem ha1
      · intro a _
        have hsrc : src ≠ h := fun e => hne e.symm
        simp only [UOp.step, UniquePointer.moveAssign, ne_eq, hne, not_false_eq_true, if_true,
          upd_other _ _ hsrc]
        by_cases e1 : a = src
        · rw [e1, upd_same, upd_same]
        · by_cases e2 : a = h
          · rw [upd_other _ _ e1, upd_other _ _ e1, e2, upd_same, upd_same]
          · rw [upd_other _ _ e1, upd_other _ _ e1, upd_other _ _ e2, upd_other _ _ e2,
              upd_other _ _ e2]
      · simp [UOp.step, UniquePointer.moveAssign, hne]
  | reset h p =>
    have hl1 : h ∈ s.live := hl
    have h1 := uinv_drop hs hl1
    have h2 := uinv_set h1 h p (by
      intro v hv
      subst hv
      have hu : s.unowned v := hf
      refine ⟨?_, ?_⟩
      · show v ∉ (s.store.delete (s.obj h).ptr).deleted
        rw [mem_delete_deleted]
        rintro (hd | hd)
        · exact hu.1 hd
        · exact hu.2 h hl1 hd
      · intro g hg hgh
        show (upd s.obj h ⟨none⟩ g).ptr ≠ some v
        rw [upd_other _ _ hgh]
        exact hu.2 g hg)
    refine uinv_of_agree h2 ?_ ?_ rfl
    · intro a ha
      have ha1 : a ∈ s.live := ha
      exact Finset.mem_insert_of_mem ha1
    · intro a _
      show upd s.obj h ⟨p⟩ a = upd (upd s.obj h ⟨none⟩) h ⟨p⟩ a
      by_cases e : a = h
      · rw [e, upd_same, upd_same]
      · rw [upd_other _ _ e, upd_other _ _ e, upd_other _ _ e]
  | release h =>
    have h1 := uinv_set hs h none (fun v hv => by cases hv)
    refine uinv_of_agree h1 ?_ (fun a _ => rfl) rfl
    intro a ha
    have ha1 : a ∈ s.live := ha
    exact Finset.mem_insert_of_mem ha1
  | destroy h =>
    have hl1 : h ∈ s.live := hl
    have h1 := uinv_drop hs hl1
    refine uinv_of_agree h1 ?_ ?_ rfl
    · intro a ha
      have ha1 : a ∈ s.live.erase h := ha
      exact Finset.mem_of_mem_erase ha1
    · intro a ha
      have ha1 : a ∈ s.live.erase h := ha
      show s.obj a = upd s.obj h ⟨none⟩ a
      rw [upd_other _ _ (Finset.ne_of_mem_erase ha1)]

theorem ureachablefresh_inv {s : UHeap T} (hr : UReachableFresh s) : UInv s := by
  induction hr with
  | start obj val => exact uinv_start obj val
  | step op _ hl hf ih => exact uinv_step ih op hl hf

/-! ## Properties of SharedPointer -/

/-- C2: in a reachable state, destroying a live handle `h` returns.  If `h` is
empty nothing changes but the end of its lifetime.  If `h` refers to the counter
`c`, that counter holds the number `n ≥ 1` of live handles sharing the pair; when
`n ≥ 2` nothing is deallocated, the counter becomes `n - 1` and every surviving
handle of the pair reports `use_count() == n - 1`; when `n = 1` the value is
deallocated exactly once and the counter exactly once. -/
theorem destroy_shared (s : SHeap T) (hr : SReachable s) (h : Nat) (hl : h ∈ s.live) :
    ∃ s1, SharedPointer.dtor h s = some s1 ∧ s1.live = s.live.erase h ∧ s1.obj = s.obj ∧
      ((s.obj h).ref_count = none →
        s1.store = s.store ∧ s1.cell = s.cell ∧ s1.deletedCells = s.deletedCells) ∧
      (∀ c, (s.obj h).ref_count = some c →
        ∃ n, s.cell c = some n ∧ n = (holders s.live s.obj c).card ∧ 1 ≤ n ∧
          (2 ≤ n →
            s1.store = s.store ∧ s1.deletedCells = s.deletedCells ∧
            s1.cell = upd s.cell c (some (n - 1)) ∧
            ∀ g ∈ s1.live, (s1.obj g).ref_count = some c →
              SharedPointer.use_count g s1 = some (n - 1)) ∧
          (n = 1 →
            ∃ v, (s.obj h).ptr = some v ∧ s1.store.deleted = s.store.deleted ++ [v] ∧
              s1.deletedCells = s.deletedCells ++ [c] ∧ s1.cell = upd s.cell c none)) := by
  have hs := sreachable_inv hr
  have hp := sreachable_paired hr h hl
  rcases sinv_release_cases hs hl with ⟨hn, he⟩ | ⟨c, hc, hcell, hcard, he⟩ |
      ⟨c, n, hc, hcell, hcard, he⟩
  · refine ⟨{ s with live := s.live.erase h },
      by simp only [SharedPointer.dtor, he, Option.map_some'], rfl, rfl, ?_, ?_⟩
    · intro _; exact ⟨rfl, rfl, rfl⟩
    · intro c hc; rw [hn] at hc; cases hc
  · refine ⟨{ s with live := s.live.erase h, store := s.store.delete (s.obj h).ptr,
                      cell := upd s.cell c none, deletedCells := s.deletedCells ++ [c] },
      by simp only [SharedPointer.dtor, he, Option.map_some'], rfl, rfl, ?_, ?_⟩
    · intro hn; rw [hc] at hn; cases hn
    · intro c1 hc1
      rw [hc] at hc1
      cases hc1
      refine ⟨1, hcell, hs.count c 1 hcell, le_refl 1, fun h2 => absurd h2 (by decide), ?_⟩
      intro _
      cases hv : (s.obj h).ptr with
      | none => rw [hp.1 hv] at hc; cases hc
      | some v => exact ⟨v, rfl, by simp [Store.delete, hv], rfl, rfl⟩
  · refine ⟨{ s with live := s.live.erase h, cell := upd s.cell c (some (n + 1)) },
      by simp only [SharedPointer.dtor, he, Option.map_some'], rfl, rfl, ?_, ?_⟩
    · intro hn; rw [hc] at hn; cases hn
    · intro c1 hc1
      rw [hc] at hc1
      cases hc1
      refine ⟨n + 2, hcell, hs.count c (n + 2) hcell, by omega, ?_, fun h1 => by omega⟩
      intro _
      refine ⟨rfl, rfl, rfl, ?_⟩
      intro g _ hg
      have hg1 : (s.obj g).ref_count = some c := hg
      simp [SharedPointer.use_count, hg1, upd_same]

/-- Instance of C2: destroying the copy `b` of the sample program leaves `a`
with `use_count() == 1` and deallocates nothing. -/
theorem destroy_shared_witness :
    SReachable sharedDemo ∧ 2 ∈ sharedDemo.live ∧
      ∃ s1, SharedPointer.dtor 2 sharedDemo = some s1 ∧ s1.live = sharedDemo.live.erase 2 :=
  have hr : SReachable sharedDemo :=
    sreachable_of_run sharedDemoOps
      (show SReachable sharedDemoStart from SReachable.start _ _) rfl
  ⟨hr, by decide, (destroy_shared sharedDemo hr 2 (by decide)).imp fun _ x => ⟨x.1, x.2.1⟩⟩

/-- C3: in a reachable state, copy-constructing a handle at the fresh address
`h` from a live handle `src` with `use_count() == n`, `n ≥ 1`, returns; both
handles then hold the value pointer `src` held, both report
`use_count() == n + 1`, and nothing is deallocated. -/
theorem copy_construct_shared (s : SHeap T) (hr : SReachable s) (h src n : Nat)
    (hv : validAddr h) (hf : h ∉ s.live) (hsrc : src ∈ s.live)
    (hn : SharedPointer.use_count src s = some n) (h1 : 1 ≤ n) :
    ∃ s1, SharedPointer.copyCtor h src s = some s1 ∧
      SharedPointer.get h s1 = SharedPointer.get src s ∧
      SharedPointer.get src s1 = SharedPointer.get src s ∧
      SharedPointer.use_count h s1 = some (n + 1) ∧
      SharedPointer.use_count src s1 = some (n + 1) ∧
      s1.store = s.store ∧ s1.deletedCells = s.deletedCells := by
  have hs := sreachable_inv hr
  have hne : src ≠ h := fun e => hf (e ▸ hsrc)
  cases hrc : (s.obj src).ref_count with
  | none =>
    simp only [SharedPointer.use_count, hrc, Option.some.injEq] at hn
    omega
  | some c =>
    have hcell : s.cell c = some n := by
      simpa only [SharedPointer.use_count, hrc] using hn
    have hbound : n + 1 < SIZE_MOD := by
      have h2 := hs.count c n hcell
      have h3 := holders_card_le s.live s.obj c
      have h4 := card_le_of_valid (insert h s.live) (valid_insert hs.addr hv)
      rw [Finset.card_insert_of_not_mem hf] at h4
      omega
    refine ⟨{ s with live := insert h s.live,
                     obj := upd s.obj h ⟨(s.obj src).ptr, (s.obj src).ref_count⟩,
                     cell := upd s.cell c (some (n + 1)) }, ?_, ?_, ?_, ?_, ?_, rfl, rfl⟩
    · simp [SharedPointer.copyCtor, SharedPointer.incr, upd_same, hrc, hcell, inc_mod hbound]
    · simp [SharedPointer.get, upd_same]
    · simp [SharedPointer.get, upd_other _ _ hne]
    · simp [SharedPointer.use_count, upd_same, hrc]
    · simp [SharedPointer.use_count, upd_other _ _ hne, hrc, upd_same]

/-- Instance of C3: a third handle copied from `a` in the sample program. -/
theorem copy_construct_shared_witness :
    SReachable sharedDemo ∧ validAddr 3 ∧ 3 ∉ sharedDemo.live ∧ 1 ∈ sharedDemo.live ∧
      SharedPointer.use_count 1 sharedDemo = some 2 ∧
      ∃ s1, SharedPointer.copyCtor 3 1 sharedDemo = some s1 ∧
        SharedPointer.use_count 3 s1 = some 3 ∧ SharedPointer.use_count 1 s1 = some 3 :=
  have hr : SReachable sharedDemo :=
    sreachable_of_run sharedDemoOps
      (show SReachable sharedDemoStart from SReachable.start _ _) rfl
  ⟨hr, by decide, by decide, by decide, by decide,
    (copy_construct_shared sharedDemo hr 3 1 2 (by decide) (by decide) (by decide)
      (by decide) (by decide)).imp fun _ x => ⟨x.1, x.2.2.2.1, x.2.2.2.2.1⟩⟩

/-- C4: move-constructing a handle at `h` from another handle `src` gives `h`
the value pointer and the counter `src` held, changes no counter (so
`h.use_count()` afterwards equals `src.use_count()` before), leaves `src` with
`use_count() == 0` and `get() == nullptr`, and deallocates nothing. -/
theorem move_construct_shared (s : SHeap T) (h src : Nat) (hne : h ≠ src) :
    SharedPointer.get h (SharedPointer.moveCtor h src s) = SharedPointer.get src s ∧
    ((SharedPointer.moveCtor h src s).obj h).ref_count = (s.obj src).ref_count ∧
    (SharedPointer.moveCtor h src s).cell = s.cell ∧
    SharedPointer.use_count h (SharedPointer.moveCtor h src s) =
      SharedPointer.use_count src s ∧
    SharedPointer.use_count src (SharedPointer.moveCtor h src s) = some 0 ∧
    SharedPointer.get src (SharedPointer.moveCtor h src s) = none ∧
    (SharedPointer.moveCtor h src s).store = s.store ∧
    (SharedPointer.moveCtor h src s).deletedCells = s.deletedCells := by
  have e1 : ((SharedPointer.moveCtor h src s).obj h) =
      ⟨(s.obj src).ptr, (s.obj src).ref_count⟩ := by
    simp [SharedPointer.moveCtor, upd_other _ _ hne, upd_same]
  have e2 : ((SharedPointer.moveCtor h src s).obj src) = ⟨none, none⟩ := by
    simp [SharedPointer.moveCtor, upd_same]
  have e3 : (SharedPointer.moveCtor h src s).cell = s.cell := rfl
  refine ⟨?_, ?_, e3, ?_, ?_, ?_, rfl, rfl⟩
  · simp [SharedPointer.get, e1]
  · simp [e1]
  · simp only [SharedPointer.use_count, e1, e3]
  · simp [SharedPointer.use_count, e2]
  · simp [SharedPointer.get, e2]

/-- Instance of C4: moving `a` of the sample program into a new handle. -/
theorem move_construct_shared_witness :
    (3 : Nat) ≠ 1 ∧
      SharedPointer.use_count 3 (SharedPointer.moveCtor 3 1 sharedDemo) = some 2 ∧
      SharedPointer.get 1 (SharedPointer.moveCtor 3 1 sharedDemo) = none :=
  ⟨by decide,
    (move_construct_shared sharedDemo 3 1 (by decide)).2.2.2.1.trans (by decide),
    (move_construct_shared sharedDemo 3 1 (by decide)).2.2.2.2.2.1⟩

/-! ## Properties of the assignment operators and of UniquePointer -/

/-- C5: self-assignment is a no-op for all three assignment operators.  Move
assignment of a UniquePointer to itself, and copy or move assignment of a
SharedPointer to itself, return with the whole program state unchanged: the
handle keeps its pointer (and counter), every counter keeps its value, and
nothing is deallocated. -/
theorem self_assignment_noop (u : UHeap T) (s : SHeap T) (a : Nat) :
    UniquePointer.moveAssign a a u = u ∧
    SharedPointer.copyAssign a a s = some s ∧
    SharedPointer.moveAssign a a s = some s := by
  refine ⟨?_, ?_, ?_⟩
  · unfold UniquePointer.moveAssign
    exact if_neg (fun hne => hne rfl)
  · unfold SharedPointer.copyAssign
    exact if_neg (fun hne => hne rfl)
  · unfold SharedPointer.moveAssign
    exact if_neg (fun hne => hne rfl)

/-- C6: move-constructing `b` from `a` (two different objects) leaves
`a.get() == nullptr` and `b` holding the pointer `a` held, so `*b` is the value
`*a` was; the move deallocates nothing, and destroying both handles afterwards,
in either order, deallocates the value exactly once (nothing if `a` was empty). -/
theorem move_construct_unique (s : UHeap T) (a b : Nat) (hne : b ≠ a) :
    UniquePointer.get a (UniquePointer.moveCtor b a s) = none ∧
    UniquePointer.get b (UniquePointer.moveCtor b a s) = UniquePointer.get a s ∧
    UniquePointer.deref b (UniquePointer.moveCtor b a s) = UniquePointer.deref a s ∧
    (UniquePointer.moveCtor b a s).store = s.store ∧
    (UniquePointer.dtor a (UniquePointer.dtor b (UniquePointer.moveCtor b a s))).store.deleted =
      s.store.deleted ++ (UniquePointer.get a s).toList ∧
    (UniquePointer.dtor b (UniquePointer.dtor a (UniquePointer.moveCtor b a s))).store.deleted =
      s.store.deleted ++ (UniquePointer.get a s).toList := by
  have ea : ((UniquePointer.moveCtor b a s).obj a).ptr = none := by
    simp [UniquePointer.moveCtor, upd_same]
  have eb : ((UniquePointer.moveCtor b a s).obj b).ptr = (s.obj a).ptr := by
    simp [UniquePointer.moveCtor, upd_other _ _ hne, upd_same]
  have es : (UniquePointer.moveCtor b a s).store = s.store := rfl
  refine ⟨ea, eb, ?_, es, ?_, ?_⟩
  · simp only [UniquePointer.deref, eb, es]
  · simp only [UniquePointer.dtor, UniquePointer.get, ea, eb, es, delete_deleted_eq,
      Option.toList, List.append_nil]
  · simp only [UniquePointer.dtor, UniquePointer.get, ea, eb, es, delete_deleted_eq,
      Option.toList, List.append_nil]

/-- Instance of C6: `UniquePointer<int> c = move(a)` in the sample program; `*c`
is 42 and destroying `c` and `a` deallocates the value at 100 once. -/
theorem move_construct_unique_witness :
    (3 : Nat) ≠ 1 ∧
      UniquePointer.deref 3 (UniquePointer.moveCtor 3 1 uniqueDemo) = some 42 ∧
      (UniquePointer.dtor 1 (UniquePointer.dtor 3
        (UniquePointer.moveCtor 3 1 uniqueDemo))).store.deleted = [100] :=
  ⟨by decide,
    (move_construct_unique uniqueDemo 1 3 (by decide)).2.2.1.trans (by decide),
    (move_construct_unique uniqueDemo 1 3 (by decide)).2.2.2.2.1.trans (by decide)⟩

/-- C7: `reset(p)` executes `delete` on the pointer the handle held, so a held
value `old` is deallocated exactly once and an empty handle deallocates
nothing; afterwards `get() == p` (empty when `p` is null).  No handle begins or
ends its lifetime. -/
theorem reset_unique (s : UHeap T) (a : Nat) (p : Option Nat) :
    (UniquePointer.reset a p s).store = s.store.delete (UniquePointer.get a s) ∧
    (UniquePointer.reset a p s).store.deleted =
      s.store.deleted ++ (UniquePointer.get a s).toList ∧
    UniquePointer.get a (UniquePointer.reset a p s) = p ∧
    (UniquePointer.reset a p s).live = s.live := by
  have e : (UniquePointer.reset a p s).store = s.store.delete (s.obj a).ptr := rfl
  refine ⟨e, ?_, ?_, rfl⟩
  · rw [e, delete_deleted_eq]; rfl
  · simp [UniquePointer.get, UniquePointer.reset, upd_same]

/-- C8: `release()` returns the pointer the handle held (null if it was empty),
leaves the handle with `get() == nullptr`, and deallocates nothing; destroying
the handle afterwards deallocates nothing either. -/
theorem release_unique (s : UHeap T) (a : Nat) :
    (UniquePointer.release a s).1 = UniquePointer.get a s ∧
    UniquePointer.get a (UniquePointer.release a s).2 = none ∧
    (UniquePointer.release a s).2.store = s.store ∧
    (UniquePointer.dtor a (UniquePointer.release a s).2).store = s.store := by
  have e : ((UniquePointer.release a s).2.obj a).ptr = none := by
    simp [UniquePointer.release, upd_same]
  refine ⟨rfl, e, rfl, ?_⟩
  simp only [UniquePointer.dtor, e, Store.delete]
  rfl

theorem ureachablefresh_of_run {s s1 : UHeap T} (ops : List UOp) (hr : UReachableFresh s)
    (e : UOp.runFresh ops s = some s1) : UReachableFresh s1 := by
  induction ops generalizing s with
  | nil => simp only [UOp.runFresh, Option.some.injEq] at e; exact e ▸ hr
  | cons op ops ih =>
    simp only [UOp.runFresh] at e
    split at e
    · rename_i hop
      exact ih (UReachableFresh.step op hr hop.1 hop.2) e
    · cases e

/-- Exclusive ownership for a value type without handle members: in every state
reachable by UniquePointer operations in which each raw pointer given to the
constructor or to `reset` is null or a value that no live handle holds and that
has not been deallocated, at most one live handle holds any given value and no
value has been deallocated more than once. -/
theorem exclusive_ownership_fresh (s : UHeap T) (hr : UReachableFresh s) :
    s.exclusive ∧ s.store.deleted.Nodup :=
  ⟨(ureachablefresh_inv hr).excl, (ureachablefresh_inv hr).once⟩

/-- Instance of `exclusive_ownership_fresh`: the sample program
`uniqueFreshOps` ends with the values at 100 and 200 deallocated once each. -/
theorem exclusive_ownership_fresh_witness :
    UReachableFresh uniqueFreshDemo ∧ uniqueFreshDemo.store.deleted = [100, 200] ∧
      uniqueFreshDemo.exclusive ∧ uniqueFreshDemo.store.deleted.Nodup :=
  have hr : UReachableFresh uniqueFreshDemo :=
    ureachablefresh_of_run uniqueFreshOps
      (show UReachableFresh uniqueDemoStart from UReachableFresh.start _ _) rfl
  ⟨hr, by decide, exclusive_ownership_fresh uniqueFreshDemo hr⟩

/-- Move assignment when `delete ptr` only releases storage: for two distinct
handles `a` and `b` that do not hold the same value (`b` is empty or its pointer
differs from that of `a`), `a = move(b)` deallocates the value `a` held before
exactly once (nothing if `a` was empty); then `a` holds the pointer `b` held,
`b` is empty, and the value transferred from `b` is still in the store and its
deallocation count is unchanged. -/
theorem move_assign_unique (s : UHeap T) (a b : Nat) (hne : a ≠ b)
    (hdiff : UniquePointer.get b s = none ∨ UniquePointer.get a s ≠ UniquePointer.get b s) :
    (UniquePointer.moveAssign a b s).store = s.store.delete (UniquePointer.get a s) ∧
    (UniquePointer.moveAssign a b s).store.deleted =
      s.store.deleted ++ (UniquePointer.get a s).toList ∧
    UniquePointer.get a (UniquePointer.moveAssign a b s) = UniquePointer.get b s ∧
    UniquePointer.get b (UniquePointer.moveAssign a b s) = none ∧
    (UniquePointer.moveAssign a b s).live = s.live ∧
    ∀ v, UniquePointer.get b s = some v →
      (UniquePointer.moveAssign a b s).store.val v = s.store.val v ∧
      (UniquePointer.moveAssign a b s).store.deleted.count v = s.store.deleted.count v := by
  have hba : b ≠ a := fun e => hne e.symm
  have es : (UniquePointer.moveAssign a b s).store = s.store.delete (s.obj a).ptr := by
    simp [UniquePointer.moveAssign, hne]
  refine ⟨es, ?_, ?_, ?_, ?_, ?_⟩
  · rw [es, delete_deleted_eq]; rfl
  · simp [UniquePointer.get, UniquePointer.moveAssign, hne, upd_other _ _ hne, upd_same]
  · simp [UniquePointer.get, UniquePointer.moveAssign, hne, upd_same]
  · simp [UniquePointer.moveAssign, hne]
  · intro v hv
    have hav : (s.obj a).ptr ≠ some v := by
      rcases hdiff with h | h
      · rw [hv] at h; cases h
      · intro e; exact h (e.trans hv.symm)
    rw [es]
    cases hp : (s.obj a).ptr with
    | none => exact ⟨rfl, rfl⟩
    | some w =>
      have hwv : v ≠ w := fun e => hav (by rw [hp, e])
      refine ⟨?_, ?_⟩
      · simp [Store.delete, upd_other _ _ hwv]
      · simp [Store.delete, List.count_append, List.count_singleton, hwv.symm]

/-- Instance of `move_assign_unique`: `a = move(b)` in the sample program,
where `a` holds the value at 100 and `b` the value at 200. -/
theorem move_assign_unique_witness :
    (1 : Nat) ≠ 2 ∧
      (UniquePointer.get 2 uniqueDemo = none ∨
        UniquePointer.get 1 uniqueDemo ≠ UniquePointer.get 2 uniqueDemo) ∧
      (UniquePointer.moveAssign 1 2 uniqueDemo).store.deleted = [100] ∧
      UniquePointer.get 1 (UniquePointer.moveAssign 1 2 uniqueDemo) = some 200 :=
  ⟨by decide, by decide,
    (move_assign_unique uniqueDemo 1 2 (by decide) (by decide)).2.1.trans (by decide),
    (move_assign_unique uniqueDemo 1 2 (by decide) (by decide)).2.2.1.trans (by decide)⟩

/-! ## Assignment operators under the counter discipline -/

/-- Under the counter discipline, copy assignment between two different live
handles runs `release()` to a state `r` and then either adopts an empty handle
or increments the adopted counter without wrapping. -/
theorem copyAssign_of_inv {s : SHeap T} (hs : SInv s) {h src : Nat} (hne : h ≠ src)
    (hl : h ∈ s.live) (hsrc : src ∈ s.live) :
    ∃ r, SharedPointer.release h s = some r ∧
      (((s.obj src).ref_count = none ∧
          SharedPointer.copyAssign h src s =
            some { r with obj := upd s.obj h ⟨(s.obj src).ptr, (s.obj src).ref_count⟩ }) ∨
        (∃ d k, (s.obj src).ref_count = some d ∧ r.cell d = some k ∧
          SharedPointer.copyAssign h src s =
            some { r with obj := upd s.obj h ⟨(s.obj src).ptr, (s.obj src).ref_count⟩,
                          cell := upd r.cell d (some (k + 1)) })) := by
  obtain ⟨d1, hd, hdi, hdl, -⟩ := sinv_dtor hs hl
  cases hr : SharedPointer.release h s with
  | none => simp [SharedPointer.dtor, hr] at hd
  | some r =>
    obtain ⟨hrl, hro⟩ := release_frame hr
    have hd1 : d1 = { r with live := r.live.erase h } := by
      simp only [SharedPointer.dtor, hr, Option.map_some', Option.some.injEq] at hd
      exact hd.symm
    refine ⟨r, rfl, ?_⟩
    cases hrc : (s.obj src).ref_count with
    | none =>
      left
      refine ⟨rfl, ?_⟩
      simp [SharedPointer.copyAssign, hne, hr, hro, upd_same, hrc]
    | some d =>
      right
      have hsrc1 : src ∈ d1.live := by
        rw [hdl]; exact Finset.mem_erase.2 ⟨fun e => hne e.symm, hsrc⟩
      have hobj : (d1.obj src).ref_count = some d := by rw [hd1]; simpa [hro] using hrc
      cases hk : r.cell d with
      | none =>
        exact absurd (by rw [hd1]; exact hk) (hdi.alloc src hsrc1 d hobj)
      | some k =>
        have hcount := hdi.count d k (by rw [hd1]; exact hk)
        have h1 := holders_card_le d1.live d1.obj d
        have h2 := card_le_of_valid s.live hs.addr
        have h3 : d1.live.card + 1 = s.live.card := by
          rw [hdl, Finset.card_erase_of_mem hl]
          have : 0 < s.live.card := Finset.card_pos.2 ⟨h, hl⟩
          omega
        have hbound : k + 1 < SIZE_MOD := by omega
        refine ⟨d, k, rfl, hk, ?_⟩
        simp [SharedPointer.copyAssign, SharedPointer.incr, hne, hr, hro, upd_same, hrc, hk,
          inc_mod hbound]

/-- Under the counter discipline `release()` on a live handle returns: it
touches no counter but the one the handle refers to, decrements that one, and
deallocates value and counter exactly when the counter was 1. -/
theorem release_of_inv {s : SHeap T} (hs : SInv s) {h : Nat} (hl : h ∈ s.live) :
    ∃ r, SharedPointer.release h s = some r ∧ r.live = s.live ∧ r.obj = s.obj ∧
      (∀ x, (s.obj h).ref_count ≠ some x → r.cell x = s.cell x) ∧
      ((s.obj h).ref_count = none → r.store = s.store ∧ r.deletedCells = s.deletedCells) ∧
      (∀ c, (s.obj h).ref_count = some c →
        ∃ m, s.cell c = some m ∧ 1 ≤ m ∧ m + 1 ≤ SIZE_MOD ∧
          (2 ≤ m → r.cell c = some (m - 1) ∧ r.store = s.store ∧
            r.deletedCells = s.deletedCells) ∧
          (m = 1 → r.cell c = none ∧ r.deletedCells = s.deletedCells ++ [c] ∧
            r.store = s.store.delete (s.obj h).ptr)) := by
  rcases sinv_release_cases hs hl with
    ⟨hn, he⟩ | ⟨c, hc, hcell, hcard, he⟩ | ⟨c, n, hc, hcell, hcard, he⟩
  · refine ⟨s, he, rfl, rfl, fun _ _ => rfl, fun _ => ⟨rfl, rfl⟩, ?_⟩
    intro c hc; rw [hn] at hc; cases hc
  · refine ⟨_, he, rfl, rfl, ?_, ?_, ?_⟩
    · intro x hx
      have hxc : x ≠ c := fun e => hx (e ▸ hc)
      exact upd_other _ _ hxc
    · intro hn; rw [hc] at hn; cases hn
    · intro c1 hc1
      rw [hc] at hc1
      cases hc1
      have hb : (1 : Nat) + 1 ≤ SIZE_MOD := by unfold SIZE_MOD; norm_num
      exact ⟨1, hcell, le_refl 1, hb, fun h2 => absurd h2 (by decide),
        fun _ => ⟨upd_same _ _ _, rfl, rfl⟩⟩
  · refine ⟨_, he, rfl, rfl, ?_, ?_, ?_⟩
    · intro x hx
      have hxc : x ≠ c := fun e => hx (e ▸ hc)
      exact upd_other _ _ hxc
    · intro hn; rw [hc] at hn; cases hn
    · intro c1 hc1
      rw [hc] at hc1
      cases hc1
      obtain ⟨m, hm, -, hb⟩ := sinv_cell_of_holder hs hl hc
      rw [hcell] at hm
      cases hm
      exact ⟨n + 2, hcell, by omega, hb, fun _ => ⟨upd_same _ _ _, rfl, rfl⟩,
        fun h1 => by omega⟩

/-- The released pair of `h`, read off any state `s1` that has the store, the
deallocation records and the old counter of the state `r` after `release()`. -/
theorem old_pair_of_release {s r : SHeap T} (hs : SInv s) (hp : SPaired s) {h : Nat}
    (hl : h ∈ s.live) (hrel : SharedPointer.release h s = some r) (s1 : SHeap T)
    (e1 : s1.store = r.store) (e2 : s1.deletedCells = r.deletedCells)
    (e3 : ∀ c, (s.obj h).ref_count = some c → s1.cell c = r.cell c) :
    ((s.obj h).ref_count = none →
      s1.store = s.store ∧ s1.deletedCells = s.deletedCells) ∧
    (∀ c, (s.obj h).ref_count = some c →
      ∃ m, s.cell c = some m ∧ 1 ≤ m ∧
        (2 ≤ m → s1.cell c = some (m - 1) ∧ s1.store = s.store ∧
          s1.deletedCells = s.deletedCells) ∧
        (m = 1 → s1.cell c = none ∧ s1.deletedCells = s.deletedCells ++ [c] ∧
          ∃ v, (s.obj h).ptr = some v ∧ s1.store.deleted = s.store.deleted ++ [v])) := by
  obtain ⟨r1, hrel1, -, -, -, hrn, hrc⟩ := release_of_inv hs hl
  rw [hrel] at hrel1
  cases hrel1
  refine ⟨fun hn => ?_, fun c hc => ?_⟩
  · rw [e1, e2]; exact hrn hn
  · obtain ⟨m, hm, h1m, -, h2, h3⟩ := hrc c hc
    refine ⟨m, hm, h1m, fun hm2 => ?_, fun hm1 => ?_⟩
    · rw [e1, e2, e3 c hc]; exact h2 hm2
    · obtain ⟨a1, a2, a3⟩ := h3 hm1
      refine ⟨by rw [e3 c hc]; exact a1, by rw [e2]; exact a2, ?_⟩
      cases hv : (s.obj h).ptr with
      | none => rw [(hp h hl).1 hv] at hc; cases hc
      | some v => exact ⟨v, rfl, by rw [e1, a3, hv]; rfl⟩

/-! ## Properties of SharedPointer assignment and construction -/

/-- Copy assignment when `delete ptr` only releases storage: in a reachable
state let `h` and `src` be two different live handles holding different pairs
(`src` is empty or the counters differ).  Copy assignment `h = src` returns.
It first releases the old pair of `h`: its
counter `m` becomes `m - 1` with nothing deallocated when `m ≥ 2`, and its value
and counter are each deallocated once when `m = 1`.  Then `h` holds the value
pointer and the counter of `src`, and that counter is incremented by one.  If
`src` is empty, `h` becomes empty and no counter is incremented.  No other
counter changes. -/
theorem copy_assign_shared (s : SHeap T) (hr : SReachable s) (h src : Nat) (hne : h ≠ src)
    (hl : h ∈ s.live) (hsrc : src ∈ s.live)
    (hpair : (s.obj src).ref_count = none ∨ (s.obj h).ref_count ≠ (s.obj src).ref_count) :
    ∃ s1, SharedPointer.copyAssign h src s = some s1 ∧
      SharedPointer.get h s1 = SharedPointer.get src s ∧
      (s1.obj h).ref_count = (s.obj src).ref_count ∧
      ((s.obj h).ref_count = none →
        s1.store = s.store ∧ s1.deletedCells = s.deletedCells) ∧
      (∀ c, (s.obj h).ref_count = some c →
        ∃ m, s.cell c = some m ∧ 1 ≤ m ∧
          (2 ≤ m → s1.cell c = some (m - 1) ∧ s1.store = s.store ∧
            s1.deletedCells = s.deletedCells) ∧
          (m = 1 → s1.cell c = none ∧ s1.deletedCells = s.deletedCells ++ [c] ∧
            ∃ v, (s.obj h).ptr = some v ∧ s1.store.deleted = s.store.deleted ++ [v])) ∧
      (∀ d, (s.obj src).ref_count = some d →
        ∃ k, s.cell d = some k ∧ s1.cell d = some (k + 1) ∧
          SharedPointer.use_count h s1 = some (k + 1) ∧
          SharedPointer.use_count src s1 = some (k + 1)) ∧
      ((s.obj src).ref_count = none →
        SharedPointer.get h s1 = none ∧ SharedPointer.use_count h s1 = some 0) ∧
      (∀ x, (s.obj h).ref_count ≠ some x → (s.obj src).ref_count ≠ some x →
        s1.cell x = s.cell x) := by
  have hs := sreachable_inv hr
  have hp := sreachable_paired hr
  have hsne : src ≠ h := fun e => hne e.symm
  obtain ⟨r, hrel, -, -, hrx, -, -⟩ := release_of_inv hs hl
  obtain ⟨r1, hrel1, hcopy⟩ := copyAssign_of_inv hs hne hl hsrc
  rw [hrel] at hrel1
  cases hrel1
  have hold := old_pair_of_release hs hp hl hrel
  rcases hcopy with ⟨hsn, he⟩ | ⟨d, k, hsd, hk, he⟩
  · have hptr : (s.obj src).ptr = none := (hp src hsrc).2 hsn
    have ho := hold { r with obj := upd s.obj h ⟨(s.obj src).ptr, (s.obj src).ref_count⟩ }
      rfl rfl (fun _ _ => rfl)
    refine ⟨_, he, ?_, ?_, ho.1, ho.2, ?_, ?_, ?_⟩
    · simp [SharedPointer.get, upd_same]
    · simp [upd_same]
    · intro d hd; rw [hsn] at hd; cases hd
    · intro _
      exact ⟨by simp [SharedPointer.get, upd_same, hptr],
        by simp [SharedPointer.use_count, upd_same, hsn]⟩
    · intro x hx _
      exact hrx x hx
  · have hhd : (s.obj h).ref_count ≠ some d := by
      rcases hpair with e | e
      · rw [hsd] at e; cases e
      · rw [hsd] at e; exact e
    have hkd : s.cell d = some k := by rw [← hrx d hhd]; exact hk
    have hcd : ∀ c, (s.obj h).ref_count = some c → c ≠ d := by
      intro c hc e; exact hhd (e ▸ hc)
    have ho := hold { r with obj := upd s.obj h ⟨(s.obj src).ptr, (s.obj src).ref_count⟩,
                             cell := upd r.cell d (some (k + 1)) }
      rfl rfl (fun c hc => upd_other _ _ (hcd c hc))
    refine ⟨_, he, ?_, ?_, ho.1, ho.2, ?_, ?_, ?_⟩
    · simp [SharedPointer.get, upd_same]
    · simp [upd_same]
    · intro d1 hd1
      rw [hsd] at hd1
      cases hd1
      refine ⟨k, hkd, upd_same _ _ _, ?_, ?_⟩
      · simp [SharedPointer.use_count, upd_same, hsd]
      · simp [SharedPointer.use_count, upd_other _ _ hsne, hsd, upd_same]
    · intro hn; rw [hsd] at hn; cases hn
    · intro x hx hx1
      have hxd : x ≠ d := fun e => hx1 (e ▸ hsd)
      show upd r.cell d (some (k + 1)) x = s.cell x
      rw [upd_other _ _ hxd]
      exact hrx x hx

/-- Instance of `copy_assign_shared`: `c = a` in the sample program with two
pairs releases the pair of `c` (value 200, counter 8) and raises the counter at
7 to 3. -/
theorem copy_assign_shared_witness :
    SReachable sharedPairs ∧ (3 : Nat) ≠ 1 ∧ 3 ∈ sharedPairs.live ∧ 1 ∈ sharedPairs.live ∧
      ((sharedPairs.obj 1).ref_count = none ∨
        (sharedPairs.obj 3).ref_count ≠ (sharedPairs.obj 1).ref_count) ∧
      ∃ s1, SharedPointer.copyAssign 3 1 sharedPairs = some s1 ∧
        SharedPointer.get 3 s1 = SharedPointer.get 1 sharedPairs :=
  have hr : SReachable sharedPairs :=
    sreachable_of_run sharedPairsOps
      (show SReachable sharedDemoStart from SReachable.start _ _) rfl
  ⟨hr, by decide, by decide, by decide, by decide,
    (copy_assign_shared sharedPairs hr 3 1 (by decide) (by decide) (by decide)
      (by decide)).imp fun _ x => ⟨x.1, x.2.1⟩⟩

/-- Move assignment when `delete ptr` only releases storage: in a reachable
state let `h` and `src` be two different live handles holding different pairs
(`src` is empty or the counters differ).  Move assignment `h = move(src)`
returns.  It first releases the old pair of `h`
(counter `m` becomes `m - 1` when `m ≥ 2`; value and counter are each
deallocated once when `m = 1`).  Then `h` holds the value pointer and the counter
of `src` with the counter value unchanged, and `src` is empty:
`use_count() == 0` and `get() == nullptr`.  No other counter changes. -/
theorem move_assign_shared (s : SHeap T) (hr : SReachable s) (h src : Nat) (hne : h ≠ src)
    (hl : h ∈ s.live)
    (hpair : (s.obj src).ref_count = none ∨ (s.obj h).ref_count ≠ (s.obj src).ref_count) :
    ∃ s1, SharedPointer.moveAssign h src s = some s1 ∧
      SharedPointer.get h s1 = SharedPointer.get src s ∧
      (s1.obj h).ref_count = (s.obj src).ref_count ∧
      ((s.obj h).ref_count = none →
        s1.store = s.store ∧ s1.deletedCells = s.deletedCells) ∧
      (∀ c, (s.obj h).ref_count = some c →
        ∃ m, s.cell c = some m ∧ 1 ≤ m ∧
          (2 ≤ m → s1.cell c = some (m - 1) ∧ s1.store = s.store ∧
            s1.deletedCells = s.deletedCells) ∧
          (m = 1 → s1.cell c = none ∧ s1.deletedCells = s.deletedCells ++ [c] ∧
            ∃ v, (s.obj h).ptr = some v ∧ s1.store.deleted = s.store.deleted ++ [v])) ∧
      (∀ d, (s.obj src).ref_count = some d → s1.cell d = s.cell d) ∧
      SharedPointer.use_count h s1 = SharedPointer.use_count src s ∧
      SharedPointer.use_count src s1 = some 0 ∧
      SharedPointer.get src s1 = none ∧
      (∀ x, (s.obj h).ref_count ≠ some x → s1.cell x = s.cell x) := by
  have hs := sreachable_inv hr
  have hp := sreachable_paired hr
  have hsne : src ≠ h := fun e => hne e.symm
  obtain ⟨r, hrel, -, hro, hrx, -, -⟩ := release_of_inv hs hl
  have hd : ∀ d, (s.obj src).ref_count = some d → (s.obj h).ref_count ≠ some d := by
    intro d hsd
    rcases hpair with e | e
    · rw [hsd] at e; cases e
    · rw [hsd] at e; exact e
  have he : SharedPointer.moveAssign h src s =
      some { r with obj := upd (upd s.obj h ⟨(s.obj src).ptr, (s.obj src).ref_count⟩) src
                             ⟨none, none⟩ } := by
    simp [SharedPointer.moveAssign, hne, hrel, hro]
  have ho := old_pair_of_release hs hp hl hrel
    { r with obj := upd (upd s.obj h ⟨(s.obj src).ptr, (s.obj src).ref_count⟩) src
                      ⟨none, none⟩ }
    rfl rfl (fun _ _ => rfl)
  refine ⟨_, he, ?_, ?_, ho.1, ho.2, ?_, ?_, ?_, ?_, ?_⟩
  · simp [SharedPointer.get, upd_other _ _ hne, upd_same]
  · simp [upd_other _ _ hne, upd_same]
  · intro d hsd
    exact hrx d (hd d hsd)
  · cases hsd : (s.obj src).ref_count with
    | none => simp [SharedPointer.use_count, upd_other _ _ hne, upd_same, hsd]
    | some d =>
      have := hrx d (hd d hsd)
      simp [SharedPointer.use_count, upd_other _ _ hne, upd_same, hsd, this]
  · simp [SharedPointer.use_count, upd_same]
  · simp [SharedPointer.get, upd_same]
  · intro x hx
    exact hrx x hx

/-- Instance of `move_assign_shared`: `c = move(a)` in the sample program with
two pairs. -/
theorem move_assign_shared_witness :
    SReachable sharedPairs ∧ (3 : Nat) ≠ 1 ∧ 3 ∈ sharedPairs.live ∧
      ((sharedPairs.obj 1).ref_count = none ∨
        (sharedPairs.obj 3).ref_count ≠ (sharedPairs.obj 1).ref_count) ∧
      ∃ s1, SharedPointer.moveAssign 3 1 sharedPairs = some s1 ∧
        SharedPointer.get 3 s1 = SharedPointer.get 1 sharedPairs :=
  have hr : SReachable sharedPairs :=
    sreachable_of_run sharedPairsOps
      (show SReachable sharedDemoStart from SReachable.start _ _) rfl
  ⟨hr, by decide, by decide, by decide,
    (move_assign_shared sharedPairs hr 3 1 (by decide) (by decide)
      (by decide)).imp fun _ x => ⟨x.1, x.2.1⟩⟩

/-- C13: constructing a SharedPointer from a non-null pointer `v` stores a
counter initialised to 1 in the cell `c` that `new` returned, so
`use_count() == 1` and `get() == v` right after construction; constructing with
no value gives an empty handle, allocates no counter and gives
`use_count() == 0` and `get() == nullptr`.  Neither touches the store or the
deallocation record.  (`use_count` is a function of the state that returns only
a number, so it changes neither the handle nor any counter.) -/
theorem construct_shared (s : SHeap T) (h v c : Nat) :
    (SharedPointer.ctor h (some v) c s).cell = upd s.cell c (some 1) ∧
    ((SharedPointer.ctor h (some v) c s).obj h).ref_count = some c ∧
    SharedPointer.use_count h (SharedPointer.ctor h (some v) c s) = some 1 ∧
    SharedPointer.get h (SharedPointer.ctor h (some v) c s) = some v ∧
    (SharedPointer.ctor h none c s).cell = s.cell ∧
    ((SharedPointer.ctor h none c s).obj h).ref_count = none ∧
    SharedPointer.use_count h (SharedPointer.ctor h none c s) = some 0 ∧
    SharedPointer.get h (SharedPointer.ctor h none c s) = none ∧
    (SharedPointer.ctor h (some v) c s).store = s.store ∧
    (SharedPointer.ctor h none c s).store = s.store ∧
    (SharedPointer.ctor h (some v) c s).deletedCells = s.deletedCells ∧
    (SharedPointer.ctor h none c s).deletedCells = s.deletedCells := by
  have e1 : (SharedPointer.ctor h (some v) c s).obj h = ⟨some v, some c⟩ := by
    simp [SharedPointer.ctor, upd_same]
  have e2 : (SharedPointer.ctor h none c s).obj h = ⟨none, none⟩ := by
    simp [SharedPointer.ctor, upd_same]
  have e3 : (SharedPointer.ctor h (some v) c s).cell = upd s.cell c (some 1) := rfl
  refine ⟨e3, ?_, ?_, ?_, rfl, ?_, ?_, ?_, rfl, rfl, rfl, rfl⟩
  · rw [e1]
  · simp only [SharedPointer.use_count, e1, e3, upd_same]
  · simp only [SharedPointer.get, e1]
  · rw [e2]
  · simp only [SharedPointer.use_count, e2]
  · simp only [SharedPointer.get, e2]

/-- C16: in every state reachable by SharedPointer operations, each live
handle has `ptr` null if and only if `ref_count` is null, and `get()` returns
null exactly when `use_count()` returns 0. -/
theorem members_null_together (s : SHeap T) (hr : SReachable s) (h : Nat) (hl : h ∈ s.live) :
    ((s.obj h).ptr = none ↔ (s.obj h).ref_count = none) ∧
    (SharedPointer.get h s = none ↔ SharedPointer.use_count h s = some 0) := by
  have hs := sreachable_inv hr
  have hp := sreachable_paired hr h hl
  refine ⟨hp, ?_⟩
  cases hrc : (s.obj h).ref_count with
  | none =>
    have hptr : (s.obj h).ptr = none := hp.2 hrc
    simp [SharedPointer.get, SharedPointer.use_count, hrc, hptr]
  | some c =>
    obtain ⟨n, hn, hcard, -⟩ := sinv_cell_of_holder hs hl hrc
    have hptr : (s.obj h).ptr ≠ none := fun e => by rw [hp.1 e] at hrc; cases hrc
    have hn0 : n ≠ 0 := by omega
    simp [SharedPointer.get, SharedPointer.use_count, hrc, hptr, hn, hn0]

/-- Instance of C16: the handle `a` of the sample program, which holds a pair. -/
theorem members_null_together_witness :
    SReachable sharedDemo ∧ 1 ∈ sharedDemo.live ∧
      ((sharedDemo.obj 1).ptr = none ↔ (sharedDemo.obj 1).ref_count = none) ∧
      (SharedPointer.get 1 sharedDemo = none ↔
        SharedPointer.use_count 1 sharedDemo = some 0) :=
  have hr : SReachable sharedDemo :=
    sreachable_of_run sharedDemoOps
      (show SReachable sharedDemoStart from SReachable.start _ _) rfl
  ⟨hr, by decide, members_null_together sharedDemo hr 1 (by decide)⟩

/-- C17: in a reachable state let `a` and `b` be two different live handles
that share the pair with counter `c`, whose value is `n` (then `n ≥ 2`).  Copy
assignment `a = b` returns with every counter as before (the counter is
decremented and incremented again) and deallocates nothing.  Move assignment
`a = move(b)` returns with `a` holding the pair, `b` empty, the counter at
`n - 1`, and deallocates nothing. -/
theorem assign_same_pair_shared (s : SHeap T) (hr : SReachable s) (a b c n : Nat)
    (hne : a ≠ b) (ha : a ∈ s.live) (hb : b ∈ s.live)
    (hac : (s.obj a).ref_count = some c) (hbc : (s.obj b).ref_count = some c)
    (hn : s.cell c = some n) :
    2 ≤ n ∧
    (∃ s1, SharedPointer.copyAssign a b s = some s1 ∧ s1.cell = s.cell ∧
      s1.cell c = some n ∧ s1.store = s.store ∧ s1.deletedCells = s.deletedCells ∧
      (s1.obj a).ref_count = some c ∧ SharedPointer.get a s1 = SharedPointer.get b s) ∧
    (∃ s2, SharedPointer.moveAssign a b s = some s2 ∧
      s2.cell = upd s.cell c (some (n - 1)) ∧
      s2.store = s.store ∧ s2.deletedCells = s.deletedCells ∧
      (s2.obj a).ref_count = some c ∧ SharedPointer.get a s2 = SharedPointer.get b s ∧
      SharedPointer.use_count a s2 = some (n - 1) ∧
      SharedPointer.get b s2 = none ∧ SharedPointer.use_count b s2 = some 0) := by
  have hs := sreachable_inv hr
  have hba : b ≠ a := fun e => hne e.symm
  obtain ⟨m, hm, hcard, hbound⟩ := sinv_cell_of_holder hs ha hac
  rw [hn] at hm
  cases hm
  have hbmem : b ∈ holders (s.live.erase a) s.obj c :=
    mem_holders.2 ⟨Finset.mem_erase.2 ⟨hba, hb⟩, hbc⟩
  have hpos : 0 < (holders (s.live.erase a) s.obj c).card := Finset.card_pos.2 ⟨b, hbmem⟩
  have hn2 : 2 ≤ n := by omega
  have hrel : SharedPointer.release a s =
      some { s with cell := upd s.cell c (some (n - 1)) } := by
    rcases sinv_release_cases hs ha with
      ⟨e, -⟩ | ⟨c1, e, e1, -, -⟩ | ⟨c1, k, e, e1, -, he⟩
    · rw [hac] at e; cases e
    · rw [hac] at e; cases e
      rw [hn] at e1; cases e1
      omega
    · rw [hac] at e; cases e
      rw [hn] at e1; cases e1
      exact he
  have hdec : n - 1 + 1 = n := by omega
  have hmod : n % SIZE_MOD = n := Nat.mod_eq_of_lt (by omega)
  refine ⟨hn2, ⟨{ s with obj := upd s.obj a ⟨(s.obj b).ptr, (s.obj b).ref_count⟩ },
    ?_, rfl, hn, rfl, rfl, ?_, ?_⟩,
    ⟨{ s with cell := upd s.cell c (some (n - 1)),
              obj := upd (upd s.obj a ⟨(s.obj b).ptr, (s.obj b).ref_count⟩) b ⟨none, none⟩ },
      ?_, rfl, rfl, rfl, ?_, ?_, ?_, ?_, ?_⟩⟩
  · have hcell : upd (upd s.cell c (some (n - 1))) c (some n) = s.cell := by
      funext x
      by_cases e : x = c
      · rw [e, upd_same, hn]
      · rw [upd_other _ _ e, upd_other _ _ e]
    simp [SharedPointer.copyAssign, SharedPointer.incr, hne, hrel, upd_same, hbc,
      hdec, hmod, hcell]
  · simp [upd_same, hbc]
  · simp [SharedPointer.get, upd_same]
  · simp only [SharedPointer.moveAssign, hne, ne_eq, not_false_eq_true, if_true, hrel,
      Option.map_some']
  · simp [upd_other _ _ hne, upd_same, hbc]
  · simp [SharedPointer.get, upd_other _ _ hne, upd_same]
  · simp [SharedPointer.use_count, upd_other _ _ hne, upd_same, hbc]
  · simp [SharedPointer.get, upd_same]
  · simp [SharedPointer.use_count, upd_same]

/-- Instance of C17: `a = b` and `a = move(b)` in the sample program, where
both handles share the counter at 7 with value 2. -/
theorem assign_same_pair_shared_witness :
    SReachable sharedDemo ∧ (1 : Nat) ≠ 2 ∧ 1 ∈ sharedDemo.live ∧ 2 ∈ sharedDemo.live ∧
      (sharedDemo.obj 1).ref_count = some 7 ∧ (sharedDemo.obj 2).ref_count = some 7 ∧
      sharedDemo.cell 7 = some 2 ∧
      ∃ s2, SharedPointer.moveAssign 1 2 sharedDemo = some s2 ∧
        s2.cell = upd sharedDemo.cell 7 (some (2 - 1)) :=
  have hr : SReachable sharedDemo :=
    sreachable_of_run sharedDemoOps
      (show SReachable sharedDemoStart from SReachable.start _ _) rfl
  ⟨hr, by decide, by decide, by decide, by decide, by decide, by decide,
    (assign_same_pair_shared sharedDemo hr 1 2 7 2 (by decide) (by decide) (by decide)
      (by decide) (by decide) (by decide)).2.2.imp fun _ x => ⟨x.1, x.2.1⟩⟩

/-- C19: constructing two SharedPointer handles (at different addresses `h1`,
`h2`) from the same non-null raw pointer `v` creates two counters `c1 ≠ c2`:
each handle reports `use_count() == 1` while both hold `v`, and destroying both
handles, in either order, returns and deallocates `v` twice. -/
theorem two_handles_one_pointer (s : SHeap T) (h1 h2 c1 c2 v : Nat) (hh : h1 ≠ h2)
    (hc : c1 ≠ c2) :
    SharedPointer.use_count h1
      (SharedPointer.ctor h2 (some v) c2 (SharedPointer.ctor h1 (some v) c1 s)) = some 1 ∧
    SharedPointer.use_count h2
      (SharedPointer.ctor h2 (some v) c2 (SharedPointer.ctor h1 (some v) c1 s)) = some 1 ∧
    SharedPointer.get h1
      (SharedPointer.ctor h2 (some v) c2 (SharedPointer.ctor h1 (some v) c1 s)) = some v ∧
    SharedPointer.get h2
      (SharedPointer.ctor h2 (some v) c2 (SharedPointer.ctor h1 (some v) c1 s)) = some v ∧
    (∃ s1, (SharedPointer.dtor h1
        (SharedPointer.ctor h2 (some v) c2 (SharedPointer.ctor h1 (some v) c1 s))).bind
        (SharedPointer.dtor h2) = some s1 ∧
      s1.store.deleted = s.store.deleted ++ [v, v] ∧
      s1.deletedCells = s.deletedCells ++ [c1, c2]) ∧
    (∃ s1, (SharedPointer.dtor h2
        (SharedPointer.ctor h2 (some v) c2 (SharedPointer.ctor h1 (some v) c1 s))).bind
        (SharedPointer.dtor h1) = some s1 ∧
      s1.store.deleted = s.store.deleted ++ [v, v] ∧
      s1.deletedCells = s.deletedCells ++ [c2, c1]) := by
  have hh' : h2 ≠ h1 := fun e => hh e.symm
  have hc' : c2 ≠ c1 := fun e => hc e.symm
  have hz : (1 + (SIZE_MOD - 1)) % SIZE_MOD = 0 := by unfold SIZE_MOD; norm_num
  refine ⟨?_, ?_, ?_, ?_, ?_, ?_⟩
  · simp [SharedPointer.use_count, SharedPointer.ctor, upd_other _ _ hh, upd_same,
      upd_other _ _ hc]
  · simp [SharedPointer.use_count, SharedPointer.ctor, upd_same]
  · simp [SharedPointer.get, SharedPointer.ctor, upd_other _ _ hh, upd_same]
  · simp [SharedPointer.get, SharedPointer.ctor, upd_same]
  · simp [SharedPointer.dtor, SharedPointer.release, SharedPointer.ctor, upd_other _ _ hh,
      upd_other _ _ hh', upd_same, upd_other _ _ hc, upd_other _ _ hc', hz, Store.delete]
  · simp [SharedPointer.dtor, SharedPointer.release, SharedPointer.ctor, upd_other _ _ hh,
      upd_other _ _ hh', upd_same, upd_other _ _ hc, upd_other _ _ hc', hz, Store.delete]

/-- Instance of C19: handles at 1 and 2 built from the raw pointer 100 with
counters at 7 and 8. -/
theorem two_handles_one_pointer_witness :
    (1 : Nat) ≠ 2 ∧ (7 : Nat) ≠ 8 ∧
      SharedPointer.use_count 1
        (SharedPointer.ctor 2 (some 100) 8 (SharedPointer.ctor 1 (some 100) 7 sharedDemoStart))
        = some 1 ∧
      ∃ s1, (SharedPointer.dtor 1
          (SharedPointer.ctor 2 (some 100) 8
            (SharedPointer.ctor 1 (some 100) 7 sharedDemoStart))).bind
          (SharedPointer.dtor 2) = some s1 ∧
        s1.store.deleted = sharedDemoStart.store.deleted ++ [100, 100] :=
  ⟨by decide, by decide,
    (two_handles_one_pointer sharedDemoStart 1 2 7 8 100 (by decide) (by decide)).1,
    (two_handles_one_pointer sharedDemoStart 1 2 7 8 100 (by decide)
      (by decide)).2.2.2.2.1.imp fun _ x => ⟨x.1, x.2.1⟩⟩

/-! ## Further properties of UniquePointer -/

/-- C14: destroying a UniquePointer executes `delete` on the pointer it holds:
a held value is deallocated exactly once and an empty handle deallocates
nothing.  After the value has been moved out of the handle `a` (by move
construction of `b` from `a`, or by move assignment of `a` to a different
handle `b`) or released, destroying `a` leaves the store unchanged. -/
theorem destroy_unique (s : UHeap T) (a b : Nat) (hne : b ≠ a) :
    (UniquePointer.dtor a s).store = s.store.delete (UniquePointer.get a s) ∧
    (UniquePointer.dtor a s).store.deleted =
      s.store.deleted ++ (UniquePointer.get a s).toList ∧
    (UniquePointer.get a s = none → (UniquePointer.dtor a s).store = s.store) ∧
    (UniquePointer.dtor a (UniquePointer.moveCtor b a s)).store =
      (UniquePointer.moveCtor b a s).store ∧
    (UniquePointer.dtor a (UniquePointer.moveAssign b a s)).store =
      (UniquePointer.moveAssign b a s).store ∧
    (UniquePointer.dtor a (UniquePointer.release a s).2).store =
      (UniquePointer.release a s).2.store := by
  have e0 : (UniquePointer.dtor a s).store = s.store.delete (s.obj a).ptr := rfl
  have e1 : ((UniquePointer.moveCtor b a s).obj a).ptr = none := by
    simp [UniquePointer.moveCtor, upd_same]
  have e2 : ((UniquePointer.moveAssign b a s).obj a).ptr = none := by
    simp [UniquePointer.moveAssign, hne, upd_same]
  have e3 : ((UniquePointer.release a s).2.obj a).ptr = none := by
    simp [UniquePointer.release, upd_same]
  have hd : ∀ u : UHeap T, (u.obj a).ptr = none → (UniquePointer.dtor a u).store = u.store := by
    intro u hu
    simp only [UniquePointer.dtor, hu, Store.delete]
  refine ⟨e0, ?_, ?_, hd _ e1, hd _ e2, hd _ e3⟩
  · rw [e0, delete_deleted_eq]; rfl
  · intro hn
    exact hd s hn

/-- Instance of C14: in the sample program, destroying `a` after
`b = move(a)` deallocates only the old value of `b`. -/
theorem destroy_unique_witness :
    (2 : Nat) ≠ 1 ∧
      (UniquePointer.dtor 1 uniqueDemo).store.deleted = [100] ∧
      (UniquePointer.dtor 1 (UniquePointer.moveAssign 2 1 uniqueDemo)).store.deleted = [200] :=
  ⟨by decide,
    (destroy_unique uniqueDemo 1 2 (by decide)).2.1.trans (by decide),
    (congrArg Store.deleted (destroy_unique uniqueDemo 1 2 (by decide)).2.2.2.2.1).trans
      (by decide)⟩

/-- C15: a UniquePointer constructed from a pointer `p` to the value `v`
dereferences to `v`, and `get()` and `operator->` return `p`; construction
leaves the store as it was (nothing allocated, nothing deallocated); a handle
constructed with no pointer has `get() == nullptr`, as has every handle whose
`ptr` is null.  (`operator*`, `operator->` and `get` are functions of the state
that return only a value, so they change neither the store nor the handle.) -/
theorem construct_unique (s : UHeap T) (h p : Nat) (v : T) (hv : s.store.val p = some v) :
    UniquePointer.deref h (UniquePointer.ctor h (some p) s) = some v ∧
    UniquePointer.get h (UniquePointer.ctor h (some p) s) = some p ∧
    UniquePointer.arrow h (UniquePointer.ctor h (some p) s) = some p ∧
    (UniquePointer.ctor h (some p) s).store = s.store ∧
    (UniquePointer.ctor h none s).store = s.store ∧
    UniquePointer.get h (UniquePointer.ctor h none s) = none ∧
    (∀ a, (s.obj a).ptr = none → UniquePointer.get a s = none) := by
  have e1 : ((UniquePointer.ctor h (some p) s).obj h).ptr = some p := by
    simp [UniquePointer.ctor, upd_same]
  have e2 : ((UniquePointer.ctor h none s).obj h).ptr = none := by
    simp [UniquePointer.ctor, upd_same]
  have e3 : (UniquePointer.ctor h (some p) s).store = s.store := rfl
  refine ⟨?_, e1, e1, e3, rfl, e2, fun a ha => ha⟩
  simp only [UniquePointer.deref, e1, e3, hv]

/-- Instance of C15: a handle constructed from the pointer 100 to the value 42. -/
theorem construct_unique_witness :
    uniqueDemoStart.store.val 100 = some 42 ∧
      UniquePointer.deref 1 (UniquePointer.ctor 1 (some 100) uniqueDemoStart) = some 42 ∧
      UniquePointer.get 1 (UniquePointer.ctor 1 (some 100) uniqueDemoStart) = some 100 :=
  ⟨by decide, (construct_unique uniqueDemoStart 1 100 42 (by decide)).1,
    (construct_unique uniqueDemoStart 1 100 42 (by decide)).2.1⟩

/-- C18: when a handle `a` that holds the value `v` is reset with the pointer
it already holds (`a.reset(a.get())`), `v` is deallocated while `a.get()` still
returns the pointer to `v`, so `*a` reads no value, and destroying `a`
afterwards deallocates `v` a second time. -/
theorem reset_self_pointer (s : UHeap T) (a v : Nat) (hv : UniquePointer.get a s = some v) :
    (UniquePointer.reset a (UniquePointer.get a s) s).store.deleted =
      s.store.deleted ++ [v] ∧
    (UniquePointer.reset a (UniquePointer.get a s) s).store.val v = none ∧
    UniquePointer.get a (UniquePointer.reset a (UniquePointer.get a s) s) = some v ∧
    UniquePointer.deref a (UniquePointer.reset a (UniquePointer.get a s) s) = none ∧
    (UniquePointer.dtor a (UniquePointer.reset a (UniquePointer.get a s) s)).store.deleted =
      s.store.deleted ++ [v, v] := by
  have hp : (s.obj a).ptr = some v := hv
  have e1 : ((UniquePointer.reset a (UniquePointer.get a s) s).obj a).ptr = some v := by
    simp [UniquePointer.reset, UniquePointer.get, upd_same, hp]
  have e2 : (UniquePointer.reset a (UniquePointer.get a s) s).store =
      { val := upd s.store.val v none, deleted := s.store.deleted ++ [v] } := by
    simp [UniquePointer.reset, Store.delete, hp]
  refine ⟨?_, ?_, e1, ?_, ?_⟩
  · rw [e2]
  · rw [e2]; exact upd_same _ _ _
  · simp only [UniquePointer.deref, e1, e2, upd_same]
  · simp [UniquePointer.dtor, e1, e2, Store.delete]

/-- Instance of C18: `a.reset(a.get())` in the sample program, where `a` holds
the value at 100. -/
theorem reset_self_pointer_witness :
    UniquePointer.get 1 uniqueDemo = some 100 ∧
      UniquePointer.get 1 (UniquePointer.reset 1 (UniquePointer.get 1 uniqueDemo) uniqueDemo) =
        some 100 ∧
      (UniquePointer.dtor 1
        (UniquePointer.reset 1 (UniquePointer.get 1 uniqueDemo) uniqueDemo)).store.deleted =
        [100, 100] :=
  ⟨by decide, (reset_self_pointer uniqueDemo 1 100 (by decide)).2.2.1,
    (reset_self_pointer uniqueDemo 1 100 (by decide)).2.2.2.2.trans (by decide)⟩

/-! ## Member destructors: the case without members -/

/-- A value without handle members is deleted by releasing its storage. -/
theorem udeleteWith_leaf (members : Nat → List Nat) (fuel : Nat) (p : Option Nat)
    (s : UHeap T) (hleaf : ∀ v, p = some v → members v = []) :
    UniquePointer.deleteWith members (fuel + 1) p s =
      some { s with store := s.store.delete p } := by
  cases p with
  | none => rfl
  | some v =>
    simp only [UniquePointer.deleteWith, hleaf v rfl, List.foldlM_nil, pure, Option.map_some']

theorem ureachablefreshwith_of_run (members : Nat → List Nat) (fuel : Nat) {s s1 : UHeap T}
    (ops : List UOp) (hr : UReachableFreshWith members s)
    (e : UOp.runFreshWith members fuel ops s = some s1) : UReachableFreshWith members s1 := by
  induction ops generalizing s with
  | nil => simp only [UOp.runFreshWith, Option.some.injEq] at e; exact e ▸ hr
  | cons op ops ih =>
    simp only [UOp.runFreshWith] at e
    split at e
    · rename_i hop
      cases hstep : op.stepWith members fuel s with
      | none => simp [hstep] at e
      | some s2 =>
        rw [hstep] at e
        exact ih (UReachableFreshWith.step op fuel hr hop.1 hop.2 hstep) e
    · cases e

/-- C10 as stated fails, in two ways.  (1) When both handles hold the same
value: after `UniquePointer<int> a(p); UniquePointer<int> b(p); a = move(b);`
the handle `a` holds the pointer transferred from `b`, and that value has been
deallocated.  (2) When `other` is a member of the value `self` holds: on a list
of two nodes, `head = std::move(head->next);` (distinct handles at 1 and 10,
different values 100 and 200) returns with `head` holding the pointer to the
second node although `delete ptr` has destroyed `other` and deallocated that
node. -/
theorem move_assign_unique_counterexample :
    (UReachable uniqueAliased ∧ 1 ∈ uniqueAliased.live ∧ 2 ∈ uniqueAliased.live ∧
      UniquePointer.get 2 uniqueAliased = some 100 ∧
      uniqueAliased.store.val 100 = some 42 ∧
      UniquePointer.get 1 (UniquePointer.moveAssign 1 2 uniqueAliased) = some 100 ∧
      (UniquePointer.moveAssign 1 2 uniqueAliased).store.deleted = [100] ∧
      (UniquePointer.moveAssign 1 2 uniqueAliased).store.val 100 = none) ∧
    (UReachableFreshWith nodeMembers uniqueList ∧
      1 ∈ uniqueList.live ∧ 10 ∈ uniqueList.live ∧
      UniquePointer.get 1 uniqueList = some 100 ∧
      UniquePointer.get 10 uniqueList = some 200 ∧
      uniqueList.store.deleted = [] ∧
      (UniquePointer.moveAssignWith nodeMembers 4 1 10 uniqueList).map
        (fun s1 => (UniquePointer.get 1 s1, s1.store.deleted, decide (10 ∈ s1.live))) =
        some (some 200, [200, 100], false)) := by
  have h0 : UReachable uniqueDemoStart := UReachable.start _ _
  have h1 : UReachable uniqueAliased :=
    UReachable.step (.construct 2 (some 100))
      (UReachable.step (.construct 1 (some 100)) h0 (by decide)) (by decide)
  have h3 : UReachableFreshWith nodeMembers uniqueList :=
    ureachablefreshwith_of_run nodeMembers 4 uniqueListOps
      (show UReachableFreshWith nodeMembers uniqueDemoStart from
        UReachableFreshWith.start _ _) rfl
  exact ⟨⟨h1, by decide, by decide, by decide, by decide, by decide, by decide, by decide⟩,
    h3, by decide, by decide, by decide, by decide, by decide, by decide⟩

/-- C10 (amended): let `a` and `b` be two distinct handles that do not hold the
same value (`b` is empty or its pointer differs from that of `a`), and let the
value `a` holds have no handle members, so that deleting it destroys no handle.
Then `a = move(b)` returns (one level of destructor calls suffices); it
deallocates the value `a` held before exactly once (nothing if `a` was empty);
afterwards `a` holds the pointer `b` held, `b` is empty, and the value
transferred from `b` is still in the store with its deallocation count
unchanged. -/
theorem move_assign_unique_no_members (members : Nat → List Nat) (fuel : Nat)
    (s : UHeap T) (a b : Nat) (hne : a ≠ b)
    (hdiff : UniquePointer.get b s = none ∨ UniquePointer.get a s ≠ UniquePointer.get b s)
    (hleaf : ∀ v, UniquePointer.get a s = some v → members v = []) :
    ∃ s1, UniquePointer.moveAssignWith members (fuel + 1) a b s = some s1 ∧
      s1.store = s.store.delete (UniquePointer.get a s) ∧
      s1.store.deleted = s.store.deleted ++ (UniquePointer.get a s).toList ∧
      UniquePointer.get a s1 = UniquePointer.get b s ∧
      UniquePointer.get b s1 = none ∧
      s1.live = s.live ∧
      ∀ v, UniquePointer.get b s = some v →
        s1.store.val v = s.store.val v ∧
        s1.store.deleted.count v = s.store.deleted.count v := by
  have e : UniquePointer.moveAssignWith members (fuel + 1) a b s =
      some (UniquePointer.moveAssign a b s) := by
    have hleaf1 : ∀ v, (s.obj a).ptr = some v → members v = [] := hleaf
    simp only [UniquePointer.moveAssignWith, UniquePointer.moveAssign, if_pos hne,
      udeleteWith_leaf members fuel _ s hleaf1, Option.map_some']
  exact ⟨_, e, move_assign_unique s a b hne hdiff⟩

/-- Instance of C10 (amended): `a = move(b)` in the sample program without
members, where `a` holds the value at 100 and `b` the value at 200. -/
theorem move_assign_unique_no_members_witness :
    (1 : Nat) ≠ 2 ∧
      (UniquePointer.get 2 uniqueDemo = none ∨
        UniquePointer.get 1 uniqueDemo ≠ UniquePointer.get 2 uniqueDemo) ∧
      (∀ v, UniquePointer.get 1 uniqueDemo = some v → (fun _ : Nat => ([] : List Nat)) v = []) ∧
      ∃ s1, UniquePointer.moveAssignWith (fun _ => []) 1 1 2 uniqueDemo = some s1 ∧
        s1.store.deleted = uniqueDemo.store.deleted ++ (UniquePointer.get 1 uniqueDemo).toList :=
  ⟨by decide, by decide, fun _ _ => rfl,
    (move_assign_unique_no_members (fun _ => []) 0 uniqueDemo 1 2 (by decide) (by decide)
      (fun _ _ => rfl)).imp fun _ x => ⟨x.1, x.2.2.1⟩⟩

end Pointer
